import Mathlib

/-!
Verification of the mlx-studio streaming tool-call pipeline.

This file gives a shallow embedding of the tool-call dialect parsers
(src/extensions/mistral_tools_parser.py, src/extensions/gpt_oss_tools_parser.py),
the GPT-OSS channel extraction (src/extensions/gpt_oss_adapter.py), and the two
streaming adapters (src/extensions/mistral_adapter.py patched_generate_stream and
src/extensions/gguf_adapter.py _generate_stream_async), and proves or refutes the
frozen specification claims about them.

Python strings are modelled as Lean Strings (lists of unicode scalar chars);
character classes are modelled over ASCII, which covers every literal the
patterns anchor on.  Python regexes are translated pattern by pattern into
deterministic scanners whose behaviour coincides with the original pattern on
its anchored-literal structure.  uuid4-generated ids are modelled by an explicit
fresh-id counter threaded through the parsers (each generated id is fresh and
unique; two generations never coincide).
-/

set_option maxRecDepth 20000

/-- Python-style values as produced by json.loads and the argument scrapers.
Floats are kept as their literal source text: no claim in this development
depends on float arithmetic, only on which branch of the repair ladder ran. -/
inductive PyVal where
  | null
  | bool (b : Bool)
  | int (n : Int)
  | float (raw : String)
  | str (s : String)
  | list (xs : List PyVal)
  | dict (kvs : List (String × PyVal))

/-- Python truthiness of a value (used for `if not arguments`). -/
def pyFalsy : PyVal → Bool
  | .null => true
  | .bool b => !b
  | .int n => n == 0
  | .float r => r == "0.0" || r == "0" || r == "-0.0"
  | .str s => s == ""
  | .list xs => xs.isEmpty
  | .dict kvs => kvs.isEmpty

/-- ASCII word character, Python re `\w` (model restricted to ASCII). -/
def isWordChar (c : Char) : Bool := c.isAlphanum || c == '_'

/-- ASCII whitespace, Python re `\s` / str.strip (model restricted to ASCII). -/
def isWsChar (c : Char) : Bool :=
  c == ' ' || c == '\t' || c == '\n' || c == '\r' || c == '\x0b' || c == '\x0c'

/-- Does `cand` occur at the head of `cs`? -/
def isPre : List Char → List Char → Bool
  | [], _ => true
  | _ :: _, [] => false
  | a :: as, b :: bs => a == b && isPre as bs

/-- Substring test over char lists, Python `needle in hay`. -/
def hasSubL (needle : List Char) : List Char → Bool
  | [] => isPre needle []
  | c :: t => isPre needle (c :: t) || hasSubL needle t

/-- Python `sub in s`. -/
def strHas (s sub : String) : Bool := hasSubL sub.data s.data

/-- Drop a literal from the head of `cs`, or fail. -/
def dropLit (lit cs : List Char) : Option (List Char) :=
  if isPre lit cs then some (cs.drop lit.length) else none

/-- Drop leading whitespace. -/
def dropWsL : List Char → List Char
  | [] => []
  | c :: t => if isWsChar c then dropWsL t else c :: t

/-- Python str.strip(). -/
def pyStrip (s : String) : String :=
  ⟨(dropWsL (dropWsL s.data).reverse).reverse⟩

/-- Python str.split() with no argument: whitespace runs, no empty tokens.
Fuel-based so that the kernel can evaluate it (a fuel of length + 1 suffices). -/
def splitWsTokensF : Nat → List Char → List String
  | 0, _ => []
  | _, [] => []
  | f + 1, c :: t =>
    if isWsChar c then splitWsTokensF f t
    else
      let run := c :: t.takeWhile (fun x => !isWsChar x)
      ⟨run⟩ :: splitWsTokensF f (t.dropWhile (fun x => !isWsChar x))

/-- Python str.split() with no argument. -/
def splitWsTokens (s : String) : List String := splitWsTokensF (s.data.length + 1) s.data

/-- Python str.split(',') : split on every comma, keeping empty pieces. -/
def splitCommaF : Nat → List Char → List String
  | 0, _ => []
  | f + 1, cs =>
    let piece := cs.takeWhile (fun c => c != ',')
    match cs.dropWhile (fun c => c != ',') with
    | [] => [⟨piece⟩]
    | _ :: rest => ⟨piece⟩ :: splitCommaF f rest

/-- Python str.split(','). -/
def splitComma (s : String) : List String := splitCommaF (s.data.length + 1) s.data

/-- Python dict insertion: update in place keeping original position, else append. -/
def dictIns (k : String) (v : PyVal) : List (String × PyVal) → List (String × PyVal)
  | [] => [(k, v)]
  | (k2, v2) :: t => if k2 == k then (k, v) :: t else (k2, v2) :: dictIns k v t

/-! ## A model of Python json.loads and json.dumps

Restricted to the strict JSON grammar that `json.loads` accepts by default
(objects, arrays, strings with escapes, numbers, true/false/null); the
non-standard NaN/Infinity extension and surrogate-pair escapes are not
modelled (no input in this development exercises them). -/

/-- Hexadecimal digit value, computed on the code point. -/
def hexVal (c : Char) : Option Nat :=
  let n := c.toNat
  if 48 ≤ n && n ≤ 57 then some (n - 48)
  else if 97 ≤ n && n ≤ 102 then some (n - 87)
  else if 65 ≤ n && n ≤ 70 then some (n - 55)
  else none

/-- JSON string body (after the opening quote): returns content and rest. -/
def jsonStrF : Nat → List Char → Option (List Char × List Char)
  | 0, _ => none
  | _, [] => none
  | f + 1, c :: t =>
    if c == '"' then some ([], t)
    else if c == '\\' then
      match t with
      | [] => none
      | e :: t2 =>
        let cont := fun (ch : Char) (rest : List Char) =>
          match jsonStrF f rest with
          | some (s, r) => some (ch :: s, r)
          | none => none
        if e == '"' then cont '"' t2
        else if e == '\\' then cont '\\' t2
        else if e == '/' then cont '/' t2
        else if e == 'b' then cont '\x08' t2
        else if e == 'f' then cont '\x0c' t2
        else if e == 'n' then cont '\n' t2
        else if e == 'r' then cont '\r' t2
        else if e == 't' then cont '\t' t2
        else if e == 'u' then
          match t2 with
          | a :: b :: c2 :: d :: t3 =>
            match hexVal a, hexVal b, hexVal c2, hexVal d with
            | some x1, some x2, some x3, some x4 =>
              cont (Char.ofNat (((x1 * 16 + x2) * 16 + x3) * 16 + x4)) t3
            | _, _, _, _ => none
          | _ => none
        else none
    else if c.toNat < 32 then none -- strict mode rejects raw control characters
    else
      match jsonStrF f t with
      | some (s, r) => some (c :: s, r)
      | none => none

/-- JSON whitespace as accepted between tokens by json.loads. -/
def jsonWsL : List Char → List Char
  | [] => []
  | c :: t => if c == ' ' || c == '\t' || c == '\n' || c == '\r' then jsonWsL t else c :: t

/-- Digit run. -/
def digitRun (cs : List Char) : List Char × List Char :=
  (cs.takeWhile Char.isDigit, cs.dropWhile Char.isDigit)

/-- JSON number token: returns (raw token, is-integral, rest), per the strict
JSON grammar -?(0|[1-9][0-9]*)(.[0-9]+)?([eE][+-]?[0-9]+)?. -/
def jsonNum (cs : List Char) : Option (List Char × Bool × List Char) := do
  let (sign, r1) := match cs with
    | '-' :: t => (['-'], t)
    | _ => (([] : List Char), cs)
  let (ip, r2) ← match r1 with
    | '0' :: t => some (['0'], t)
    | c :: _ =>
      if c.isDigit then
        let (run, rest) := digitRun r1
        some (run, rest)
      else none
    | [] => none
  -- leading zeros: "0" must not be followed by more digits
  match ip, r2 with
  | ['0'], c :: _ => if c.isDigit then none else pure ()
  | _, _ => pure ()
  let (fp, r3) ← match r2 with
    | '.' :: t =>
      let (run, rest) := digitRun t
      if run.isEmpty then none else some ('.' :: run, rest)
    | _ => some (([] : List Char), r2)
  let (ep, r4) ← match r3 with
    | c :: t =>
      if c == 'e' || c == 'E' then
        let (es, t2) := match t with
          | '+' :: t2 => (['+'], t2)
          | '-' :: t2 => (['-'], t2)
          | _ => (([] : List Char), t)
        let (run, rest) := digitRun t2
        if run.isEmpty then none else some (c :: (es ++ run), rest)
      else some (([] : List Char), r3)
    | [] => some (([] : List Char), r3)
  some (sign ++ ip ++ fp ++ ep, fp.isEmpty && ep.isEmpty, r4)

/-- Parse integer value of a (sign ++ digits) token. -/
def intOfToken (cs : List Char) : Int :=
  match cs with
  | '-' :: t => - (Int.ofNat (t.foldl (fun a c => a * 10 + (c.toNat - '0'.toNat)) 0))
  | _ => Int.ofNat (cs.foldl (fun a c => a * 10 + (c.toNat - '0'.toNat)) 0)

mutual
/-- JSON value parser (fuel-based recursive descent). -/
def jsonValF : Nat → List Char → Option (PyVal × List Char)
  | 0, _ => none
  | f + 1, cs =>
    match cs with
    | [] => none
    | c :: t =>
      if c == '"' then
        match jsonStrF (f + 1) t with
        | some (s, r) => some (.str ⟨s⟩, r)
        | none => none
      else if c == '\x7b' then
        let r := jsonWsL t
        match r with
        | '\x7d' :: r2 => some (.dict [], r2)
        | _ => jsonObjF f r []
      else if c == '[' then
        let r := jsonWsL t
        match r with
        | ']' :: r2 => some (.list [], r2)
        | _ => jsonArrF f r []
      else if isPre "true".data cs then some (.bool true, cs.drop 4)
      else if isPre "false".data cs then some (.bool false, cs.drop 5)
      else if isPre "null".data cs then some (.null, cs.drop 4)
      else
        match jsonNum cs with
        | some (tok, isInt, rest) =>
          if isInt then some (.int (intOfToken tok), rest)
          else some (.float ⟨tok⟩, rest)
        | none => none

/-- JSON object members (positioned at a key); accumulates into a Python dict. -/
def jsonObjF : Nat → List Char → List (String × PyVal) → Option (PyVal × List Char)
  | 0, _, _ => none
  | f + 1, cs, acc =>
    match cs with
    | '"' :: t =>
      match jsonStrF (f + 1) t with
      | some (k, r1) =>
        match jsonWsL r1 with
        | ':' :: r2 =>
          match jsonValF f (jsonWsL r2) with
          | some (v, r3) =>
            let acc2 := dictIns ⟨k⟩ v acc
            match jsonWsL r3 with
            | ',' :: r4 => jsonObjF f (jsonWsL r4) acc2
            | '\x7d' :: r4 => some (.dict acc2, r4)
            | _ => none
          | none => none
        | _ => none
      | none => none
    | _ => none

/-- JSON array elements (positioned at a value). -/
def jsonArrF : Nat → List Char → List PyVal → Option (PyVal × List Char)
  | 0, _, _ => none
  | f + 1, cs, acc =>
    match jsonValF f cs with
    | some (v, r1) =>
      let acc2 := acc ++ [v]
      match jsonWsL r1 with
      | ',' :: r2 => jsonArrF f (jsonWsL r2) acc2
      | ']' :: r2 => some (.list acc2, r2)
      | _ => none
    | none => none
end

/-- Python json.loads: whole-string parse. -/
def jsonLoads (s : String) : Option PyVal :=
  match jsonValF (2 * s.data.length + 8) (jsonWsL s.data) with
  | some (v, rest) => if (jsonWsL rest).isEmpty then some v else none
  | none => none

/-- Escape a string as json.dumps does (ASCII content). -/
def jsonQuote (s : String) : String :=
  let esc := fun (c : Char) =>
    if c == '"' then "\\\"".data
    else if c == '\\' then "\\\\".data
    else if c == '\n' then "\\n".data
    else if c == '\t' then "\\t".data
    else if c == '\r' then "\\r".data
    else [c]
  ⟨'"' :: (s.data.foldr (fun c acc => esc c ++ acc) ['"'])⟩

/-- Comma-separated join with Python dumps default item separator. -/
def joinComma : List String → String
  | [] => ""
  | [x] => x
  | x :: y :: t => x ++ ", " ++ joinComma (y :: t)

/-- Python json.dumps with default separators (fuel-based over value depth). -/
def pyDumpsF : Nat → PyVal → String
  | 0, _ => ""
  | f + 1, v =>
    match v with
    | .null => "null"
    | .bool true => "true"
    | .bool false => "false"
    | .int n => toString n
    | .float raw => raw
    | .str s => jsonQuote s
    | .list xs => "[" ++ joinComma (xs.map (pyDumpsF f)) ++ "]"
    | .dict kvs =>
      "\x7b" ++ joinComma (kvs.map (fun kv => jsonQuote kv.1 ++ ": " ++ pyDumpsF f kv.2)) ++ "\x7d"

/-- Python json.dumps (values in this development are shallow). -/
def pyDumps (v : PyVal) : String := pyDumpsF 100 v

/-! ## Regex scanners

Each Python pattern used by the sources is translated into a deterministic
scanner with re.findall semantics: leftmost non-overlapping matches, resuming
after each match, advancing one character on failure.  Every pattern anchors
on a literal followed by maximal character-class runs, so the translation is
exact (greedy runs cannot backtrack into a following disjoint literal). -/

/-- Generic findall driver: `m` attempts a match at the current position and
returns the captured value plus the resumption point. -/
def scanAll {α : Type} (m : List Char → Option (α × List Char)) : Nat → List Char → List α
  | 0, _ => []
  | _, [] => []
  | f + 1, c :: t =>
    match m (c :: t) with
    | some (p, rest) => p :: scanAll m f rest
    | none => scanAll m f t

/-- Brace group `\x7b[^\x7d]*\x7d`: an opening brace up to the first closing
brace, inclusive.  (Both alternatives of the source's group-2 disjunction
reduce to this.)  Returns the whole group and the rest. -/
def braceGroup (cs : List Char) : Option (List Char × List Char) :=
  match cs with
  | '\x7b' :: body =>
    let inner := body.takeWhile (fun c => c != '\x7d')
    match body.dropWhile (fun c => c != '\x7d') with
    | '\x7d' :: r => some ('\x7b' :: (inner ++ ['\x7d']), r)
    | _ => none
  | _ => none

/-- One match of MISTRAL_TOOL_PATTERN
`\[TOOL_CALLS\](\w+)\[ARGS\](\{[^\x7d]*\}|\{.*?\})` at the current position. -/
def mSimpleAt (cs : List Char) : Option ((String × String) × List Char) := do
  let r1 ← dropLit "[TOOL_CALLS]".data cs
  let nm := r1.takeWhile isWordChar
  if nm.isEmpty then none else
  let r2 ← dropLit "[ARGS]".data (r1.drop nm.length)
  let (g2, rest) ← braceGroup r2
  some ((⟨nm⟩, ⟨g2⟩), rest)

/-- Lazy group of MISTRAL_TOOL_PATTERN_MULTILINE: `.*?` under DOTALL up to the
lookahead `(?=\[TOOL_CALLS\]|$)`; `$` also matches before a single trailing
newline. -/
def mMultiTail : List Char → List Char × List Char
  | [] => ([], [])
  | c :: t =>
    if isPre "[TOOL_CALLS]".data (c :: t) then ([], c :: t)
    else if c == '\n' && t.isEmpty then ([], [c])
    else
      let (a, b) := mMultiTail t
      (c :: a, b)

/-- One match of MISTRAL_TOOL_PATTERN_MULTILINE
`\[TOOL_CALLS\](\w+)\[ARGS\](.*?)(?=\[TOOL_CALLS\]|$)`. -/
def mMultiAt (cs : List Char) : Option ((String × String) × List Char) := do
  let r1 ← dropLit "[TOOL_CALLS]".data cs
  let nm := r1.takeWhile isWordChar
  if nm.isEmpty then none else
  let r2 ← dropLit "[ARGS]".data (r1.drop nm.length)
  let (g2, rest) := mMultiTail r2
  some ((⟨nm⟩, ⟨g2⟩), rest)

/-- Value-class character of the mistral scraper's unquoted alternative
`[\w./\-]+`. -/
def isMValChar (c : Char) : Bool := isWordChar c || c == '.' || c == '/' || c == '-'

/-- Value-class character of the gpt-oss scraper's unquoted alternative
`[\w.-]+`. -/
def isGValChar (c : Char) : Bool := isWordChar c || c == '.' || c == '-'

/-- One match of a key/value scraper pattern
`"(\w+)"\s*:\s*(?:"([^"]*)"|(CLASS+)|\[([^\]]*)\])`, parameterised by the
unquoted value class; `withArr` enables the bracket-array alternative (present
in the mistral scraper, absent in the gpt-oss one).  Groups that did not
participate are returned as "" exactly as re.findall does. -/
def kvAt (cls : Char → Bool) (withArr : Bool) (cs : List Char) :
    Option ((String × String × String × String) × List Char) :=
  match cs with
  | '"' :: r1 =>
    let key := r1.takeWhile isWordChar
    if key.isEmpty then none else
    match r1.drop key.length with
    | '"' :: r2 =>
      match dropWsL r2 with
      | ':' :: r4 =>
        let r5 := dropWsL r4
        match r5 with
        | '"' :: r6 =>
          let v := r6.takeWhile (fun c => c != '"')
          match r6.dropWhile (fun c => c != '"') with
          | '"' :: r7 => some ((⟨key⟩, ⟨v⟩, "", ""), r7)
          | _ => none
        | '[' :: r6 =>
          if withArr then
            let v := r6.takeWhile (fun c => c != ']')
            match r6.dropWhile (fun c => c != ']') with
            | ']' :: r7 => some ((⟨key⟩, "", "", ⟨v⟩), r7)
            | _ => none
          else none
        | _ =>
          let v := r5.takeWhile cls
          if v.isEmpty then none
          else some ((⟨key⟩, "", ⟨v⟩, ""), r5.drop v.length)
      | _ => none
    | _ => none
  | _ => none

/-! ## The Mistral/Devstral tool-call dialect parser
(src/extensions/mistral_tools_parser.py) -/

/-- A parsed tool call (dataclass ParsedToolCall of the mistral source; its
arguments are always a Python dict there). -/
structure ParsedToolCall where
  id : String
  name : String
  arguments : List (String × PyVal)

/-- Model of f"call_\x7buuid.uuid4().hex[:8]\x7d": the n-th freshly drawn id. -/
def mkCallId (n : Nat) : String := "call_" ++ toString n

/-- Python int(str) on the strings reachable from the scraper's numeric branch:
an optional single leading minus then a nonempty digit run. -/
def pyIntOfStr (s : String) : Option Int :=
  let cs := s.data
  let body := match cs with
    | '-' :: t => t
    | _ => cs
  if body.isEmpty || !body.all Char.isDigit then none
  else
    let n := Int.ofNat (body.foldl (fun a c => a * 10 + (c.toNat - '0'.toNat)) 0)
    some (match cs with
      | '-' :: _ => -n
      | _ => n)

/-- Python float(str) acceptance on the digit/dot/minus strings reachable from
the scraper's numeric branch. -/
def pyFloatOk (s : String) : Bool :=
  let cs := match s.data with
    | '-' :: t => t
    | t => t
  let ip := cs.takeWhile Char.isDigit
  match cs.drop ip.length with
  | [] => !ip.isEmpty
  | '.' :: fr => (!ip.isEmpty || !fr.isEmpty) && fr.all Char.isDigit
  | _ => false

/-- The scraper's numeric pre-check
`value.replace('.', '').replace('-', '').isdigit()`. -/
def mNumCheck (s : String) : Bool :=
  let cs := s.data.filter (fun c => c != '.' && c != '-')
  !cs.isEmpty && cs.all Char.isDigit

/-- Python str.lower() over ASCII. -/
def pyLower (s : String) : String := ⟨s.data.map Char.toLower⟩

/-- Opportunistic typing of an unquoted scraped value (shared text of both
scrapers): true/false, then int/float with ValueError falling back to the
original string. -/
def scrapeConvert (v : String) : PyVal :=
  if pyLower v == "true" then .bool true
  else if pyLower v == "false" then .bool false
  else if mNumCheck v then
    if !(strHas v ".") then
      match pyIntOfStr v with
      | some n => .int n
      | none => .str v
    else if pyFloatOk v then .float v
    else .str v
  else .str v

/-- Bracket-array value of the mistral scraper: json.loads("[" ++ g ++ "]"),
falling back to a comma split of raw strings. -/
def mArrVal (g : String) : PyVal :=
  match jsonLoads ("[" ++ g ++ "]") with
  | some v => v
  | none => .list ((splitComma g).map .str)

/-- The mistral scraper _parse_malformed_json: regex key/value extraction into
a dict, None when nothing was recovered.  An empty quoted value makes group 1
falsy, so (exactly as in the source) the pair is skipped. -/
def mScrapeMalformed (text : String) : Option (List (String × PyVal)) :=
  let ms := scanAll (kvAt isMValChar true) (text.data.length + 1) text.data
  let d := ms.foldl
    (fun acc m =>
      let (key, g1, g2, g3) := m
      if g1 != "" then dictIns key (.str g1) acc
      else if g2 != "" then dictIns key (scrapeConvert g2) acc
      else if g3 != "" then dictIns key (mArrVal g3) acc
      else acc) []
  if d.isEmpty then none else some d

/-- The brace-normalisation step of _parse_json_args: strip, cut to the first
opening brace (None when the text has no brace at all), then close the
object -- truncate to the last closing brace, or append one when none
exists. -/
def mRepairBraces (s : String) : Option String :=
  let cs := (pyStrip s).data
  let cs :=
    if isPre ['\x7b'] cs then some cs
    else
      match cs.dropWhile (fun c => c != '\x7b') with
      | [] => none
      | r => some r
  match cs with
  | none => none
  | some cs =>
    some ⟨if cs.getLast? == some '\x7d' then cs
          else
            match cs.reverse.dropWhile (fun c => c != '\x7d') with
            | [] => cs ++ ['\x7d']
            | r => r.reverse⟩

/-- The mistral _parse_json_args repair ladder: returns None exactly when the
source returns None (argument dict unrecoverable). -/
def parseJsonArgs (s : String) : Option (List (String × PyVal)) :=
  if s == "" then some []
  else
    match mRepairBraces s with
    | none => some []  -- no object start found at all: return \x7b\x7d
    | some r =>
      match jsonLoads r with
      | some (.dict kvs) => some kvs
      | some _ => some []  -- unreachable: the text starts with a brace
      | none => mScrapeMalformed r

/-- The per-match loop of parse_mistral_tool_calls: dedup on
name ++ ":" ++ args, id generation, argument repair, drop on None. -/
def buildMistralCalls : Nat → List String → List (String × String) → List ParsedToolCall
  | _, _, [] => []
  | ctr, seen, (nm, ag) :: rest =>
    let fn := pyStrip nm
    let ar := pyStrip ag
    let key := fn ++ ":" ++ ar
    if seen.contains key then buildMistralCalls ctr seen rest
    else
      let seen2 := key :: seen
      match parseJsonArgs ar with
      | none => buildMistralCalls ctr seen2 rest
      | some args =>
        { id := mkCallId ctr, name := fn, arguments := args } :: buildMistralCalls (ctr + 1) seen2 rest

/-- has_mistral_tool_calls of the source. -/
def hasMistralToolCalls (text : String) : Bool :=
  text != "" && strHas text "[TOOL_CALLS]" && strHas text "[ARGS]"

/-- parse_mistral_tool_calls of the source; ctr is the fresh-uuid supply. -/
def parseMistralToolCalls (ctr : Nat) (text : String) : List ParsedToolCall :=
  if text == "" then []
  else if !(strHas text "[TOOL_CALLS]") then []
  else
    let n := text.data.length + 1
    let ms := scanAll mSimpleAt n text.data
    let ms := if ms.isEmpty then scanAll mMultiAt n text.data else ms
    buildMistralCalls ctr [] ms

/-! ## The GPT-OSS Harmony tool-call dialect parser
(src/extensions/gpt_oss_tools_parser.py) -/

/-- A parsed Harmony tool call; json.loads may in principle hand back any
value, so the arguments field carries a full PyVal. -/
structure HarmonyCall where
  id : String
  name : String
  arguments : PyVal

/-- The gpt-oss scraper _parse_malformed_json: a strict parse retry, then
key/value extraction (no bracket-array alternative, and the opportunistic
typing is applied to quoted values as well). -/
def gScrapeMalformed (text : String) : Option PyVal :=
  match jsonLoads text with
  | some v => some v
  | none =>
    let ms := scanAll (kvAt isGValChar false) (text.data.length + 1) text.data
    let d := ms.foldl
      (fun acc m =>
        let (key, g1, g2, _) := m
        let v := if g1 != "" then g1 else g2
        dictIns key (scrapeConvert v) acc) []
    if d.isEmpty then none else some (.dict d)

/-- Harmony pattern 1:
`<\|channel\|>commentary\s+to=functions\.(\w+)(?:\s+json|<\|constrain\|>json)?<\|message\|>(\{[^\x7d]*\})`.
The optional group's alternatives start with whitespace resp. '<', so trying
each continuation in order is exactly the regex backtracking behaviour. -/
def h1At (cs : List Char) : Option ((String × String) × List Char) := do
  let r1 ← dropLit "<|channel|>commentary".data cs
  let ws := r1.takeWhile isWsChar
  if ws.isEmpty then none else
  let r2 ← dropLit "to=functions.".data (r1.drop ws.length)
  let nm := r2.takeWhile isWordChar
  if nm.isEmpty then none else
  let r3 := r2.drop nm.length
  let msg := fun (r : List Char) => dropLit "<|message|>".data r
  let afterOpt : Option (List Char) :=
    (do
      let w := r3.takeWhile isWsChar
      if w.isEmpty then none else
      let r4 ← dropLit "json".data (r3.drop w.length)
      msg r4) <|>
    (do
      let r4 ← dropLit "<|constrain|>json".data r3
      msg r4) <|>
    msg r3
  let r5 ← afterOpt
  let (g2, rest) ← braceGroup r5
  some ((⟨nm⟩, ⟨g2⟩), rest)

/-- Harmony pattern 2:
`<\|start\|>assistant<\|channel\|>commentary\s+to=functions\.(\w+)(?:\s+json)?<\|message\|>(\{[^\x7d]*\})`. -/
def h2At (cs : List Char) : Option ((String × String) × List Char) := do
  let r1 ← dropLit "<|start|>assistant<|channel|>commentary".data cs
  let ws := r1.takeWhile isWsChar
  if ws.isEmpty then none else
  let r2 ← dropLit "to=functions.".data (r1.drop ws.length)
  let nm := r2.takeWhile isWordChar
  if nm.isEmpty then none else
  let r3 := r2.drop nm.length
  let msg := fun (r : List Char) => dropLit "<|message|>".data r
  let afterOpt : Option (List Char) :=
    (do
      let w := r3.takeWhile isWsChar
      if w.isEmpty then none else
      let r4 ← dropLit "json".data (r3.drop w.length)
      msg r4) <|>
    msg r3
  let r5 ← afterOpt
  let (g2, rest) ← braceGroup r5
  some ((⟨nm⟩, ⟨g2⟩), rest)

/-- Harmony pattern 3: `to=functions\.(\w+)[^\x7b]*(\{[^\x7d]*\})`. -/
def h3At (cs : List Char) : Option ((String × String) × List Char) := do
  let r1 ← dropLit "to=functions.".data cs
  let nm := r1.takeWhile isWordChar
  if nm.isEmpty then none else
  let r2 := r1.drop nm.length
  let gap := r2.takeWhile (fun c => c != '\x7b')
  let (g2, rest) ← braceGroup (r2.drop gap.length)
  some ((⟨nm⟩, ⟨g2⟩), rest)

/-- The close-brace repair of parse_harmony_tool_calls: strip the regex
group, then append a closing brace when the text does not already end in
one. -/
def hRepairBraces (ag : String) : String :=
  let ag2 := pyStrip ag
  if ag2.data.getLast? == some '\x7d' then ag2 else ag2 ++ "\x7d"

/-- The per-match loop of parse_harmony_tool_calls: dedup on the raw groups,
close-brace repair inside the try, scraper fallback with the falsy check
(`if not arguments: continue`) only on the fallback path. -/
def buildHarmonyCalls : Nat → List String → List (String × String) → List HarmonyCall
  | _, _, [] => []
  | ctr, seen, (nm, ag) :: rest =>
    let key := nm ++ ":" ++ ag
    if seen.contains key then buildHarmonyCalls ctr seen rest
    else
      let seen2 := key :: seen
      match jsonLoads (hRepairBraces ag) with
      | some v =>
        { id := mkCallId ctr, name := nm, arguments := v } :: buildHarmonyCalls (ctr + 1) seen2 rest
      | none =>
        match gScrapeMalformed (hRepairBraces ag) with
        | some v =>
          if pyFalsy v then buildHarmonyCalls ctr seen2 rest
          else { id := mkCallId ctr, name := nm, arguments := v } :: buildHarmonyCalls (ctr + 1) seen2 rest
        | none => buildHarmonyCalls ctr seen2 rest

/-- parse_harmony_tool_calls of the source; ctr is the fresh-uuid supply. -/
def parseHarmonyToolCalls (ctr : Nat) (text : String) : List HarmonyCall :=
  if text == "" then []
  else if !(strHas text "functions.") && !(strHas text "to=functions") then []
  else
    let n := text.data.length + 1
    let ms := scanAll h1At n text.data ++ scanAll h2At n text.data ++ scanAll h3At n text.data
    buildHarmonyCalls ctr [] ms

/-- has_harmony_tool_calls of the source. -/
def hasHarmonyToolCalls (text : String) : Bool :=
  text != "" &&
    (strHas text "to=functions." ||
      (strHas text "functions." && strHas text "<|message|>"))

/-! ## GPT-OSS channel extraction (src/extensions/gpt_oss_adapter.py) -/

/-- Channel-pattern lookahead `(?=<\|(?:end|start|channel|call)\|>|$)`. -/
def chanStop (cs : List Char) : Bool :=
  isPre "<|end|>".data cs || isPre "<|start|>".data cs ||
    isPre "<|channel|>".data cs || isPre "<|call|>".data cs

/-- Lazy content group of the channel pattern: `.*?` under DOTALL up to the
lookahead; `$` also matches before a single trailing newline. -/
def chanLazy : List Char → List Char × List Char
  | [] => ([], [])
  | c :: t =>
    if chanStop (c :: t) then ([], c :: t)
    else if c == '\n' && t.isEmpty then ([], [c])
    else
      let (a, b) := chanLazy t
      (c :: a, b)

/-- One match of the channel pattern
`<\|channel\|>([^<|]+)<\|message\|>(.*?)(?=<\|(?:end|start|channel|call)\|>|$)`. -/
def chanAt (cs : List Char) : Option ((String × String) × List Char) := do
  let r1 ← dropLit "<|channel|>".data cs
  let nm := r1.takeWhile (fun c => c != '<' && c != '|')
  if nm.isEmpty then none else
  let r2 ← dropLit "<|message|>".data (r1.drop nm.length)
  let (content, rest) := chanLazy r2
  some ((⟨nm⟩, ⟨content⟩), rest)

/-- All channel matches of a text. -/
def findChannels (text : String) : List (String × String) :=
  scanAll chanAt (text.data.length + 1) text.data

/-- One special-token literal of `<\|(?:start|end|call|constrain)\|>`. -/
def specialLit (cs : List Char) : Option (List Char) :=
  dropLit "<|start|>".data cs <|> dropLit "<|end|>".data cs <|>
    dropLit "<|call|>".data cs <|> dropLit "<|constrain|>".data cs

/-- re.sub of `<\|(?:start|end|call|constrain)\|>(?:[^<]*)?` with "":
each removed token also swallows the following run of non-'<' characters. -/
def subSpecialF : Nat → List Char → List Char
  | 0, cs => cs
  | _, [] => []
  | f + 1, c :: t =>
    match specialLit (c :: t) with
    | some rest => subSpecialF f (rest.dropWhile (fun x => x != '<'))
    | none => c :: subSpecialF f t

/-- Special-token removal over strings. -/
def subSpecial (s : String) : String := ⟨subSpecialF (s.data.length + 1) s.data⟩

/-- One match of `<\|[^|]+\|>` at the current position. -/
def angleAt (cs : List Char) : Option (List Char) := do
  let r1 ← dropLit "<|".data cs
  let run := r1.takeWhile (fun c => c != '|')
  if run.isEmpty then none else
  match r1.drop run.length with
  | '|' :: '>' :: r2 => some r2
  | _ => none

/-- re.sub of `<\|[^|]+\|>` with "". -/
def subAngleF : Nat → List Char → List Char
  | 0, cs => cs
  | _, [] => []
  | f + 1, c :: t =>
    match angleAt (c :: t) with
    | some rest => subAngleF f rest
    | none => c :: subAngleF f t

/-- Remaining-token removal over strings. -/
def subAngle (s : String) : String := ⟨subAngleF (s.data.length + 1) s.data⟩

/-- re.sub of `\s+` with a single space. -/
def collapseWsL : List Char → List Char
  | [] => []
  | [c] => if isWsChar c then [' '] else [c]
  | c :: d :: t =>
    if isWsChar c then
      if isWsChar d then collapseWsL (d :: t)
      else ' ' :: collapseWsL (d :: t)
    else c :: collapseWsL (d :: t)

/-- The channel-collection loop of extract_final_channel: first-occurrence
dict of cleaned names with internal channels (commentary/analysis) skipped and
flagged.  Returns none when the source would raise IndexError on an all-
whitespace channel name (channel_name.split()[0]). -/
def chanFoldGo : List (String × String) × Bool → List (String × String) →
    Option (List (String × String) × Bool)
  | acc, [] => some acc
  | (chans, internal), (nm, content) :: rest =>
    match splitWsTokens nm with
    | [] => none
    | tok :: _ =>
      if tok == "commentary" || tok == "analysis" then
        chanFoldGo (chans, true) rest
      else if (chans.find? (fun p => p.1 == tok)).isSome then
        chanFoldGo (chans, internal) rest
      else
        chanFoldGo (chans ++ [(tok, pyStrip content)], internal) rest

/-- extract_final_channel of the source.  Returns none exactly when the source
raises (all-whitespace channel name). -/
def extractFinalChannel (text : String) : Option String :=
  if !(strHas text "<|channel|>" || strHas text "<|start|>") then some text
  else
    match chanFoldGo ([], false) (findChannels text) with
    | none => none
    | some (chans, internal) =>
      match chans.find? (fun p => p.1 == "final") with
      | some p => some (pyStrip (subSpecial p.2))
      | none =>
        if internal then some ""
        else
          let cleaned := pyStrip ⟨collapseWsL (subAngle (subSpecial text)).data⟩
          some (if cleaned == "" then text else cleaned)

/-! ## The Mistral/Devstral streaming adapter
(src/extensions/mistral_adapter.py patched_generate_stream)

Chunks are modelled by the fields the adapter reads or writes: delta content,
finish reason, and the streaming tool-call entries it constructs.  The `tag`
field stands for all remaining payload (id, created, usage, ...) that a
passed-through chunk carries unchanged. -/

/-- is_mistral_model of the source. -/
def isMistralModel (modelId : String) : Bool :=
  modelId != "" &&
    (let m := pyLower modelId
     strHas m "devstral" || strHas m "mistral" || strHas m "ministral")

/-- A chat-completion chunk as seen by the mistral adapter.  A tool-call entry
is (index, id, name, argumentsJson). -/
structure MChunk where
  content : Option String := none
  finish : Option String := none
  toolCalls : List (Nat × String × String × String) := []
  tag : Nat := 0
deriving DecidableEq

/-- Loop state of patched_generate_stream: the 3-chunk lookback deque, the
accumulated text, the marker flag, and the chunks yielded so far. -/
structure MState where
  lookback : List MChunk := []
  acc : String := ""
  detected : Bool := false
  out : List MChunk := []

/-- The deque push of the stream loop: append (maxlen 3, discarding the
oldest on overflow) and, when the deque is full, yield its oldest entry --
which the source does NOT pop.  Returns the new deque and the yielded chunk. -/
def mPush (lookback : List MChunk) (ch : MChunk) : List MChunk × Option MChunk :=
  let lb0 := lookback ++ [ch]
  let lb := if lb0.length > 3 then lb0.drop 1 else lb0
  if lb.length == 3 then
    match lb with
    | x :: _ => (lb, some x)
    | [] => (lb, none)
  else (lb, none)

/-- One iteration of the stream loop: accumulate content, detect the partial
marker "[TOOL_CALLS" (skipping the lookback), else run the deque push. -/
def mProc (st : MState) (ch : MChunk) : MState :=
  let acc := st.acc ++ ch.content.getD ""
  if st.detected then { st with acc := acc }
  else if strHas acc "[TOOL_CALLS" then { st with acc := acc, detected := true }
  else
    let p := mPush st.lookback ch
    let yielded := match p.2 with
      | some x => [x]
      | none => []
    { st with acc := acc, lookback := p.1, out := st.out ++ yielded }

/-- The single aggregated tool-call chunk the adapter constructs on a
successful parse: content None, finish_reason "tool_calls", one entry per
record tagged with its position. -/
def mkMistralToolChunk (parsed : List ParsedToolCall) : MChunk :=
  { content := none, finish := some "tool_calls",
    toolCalls := parsed.enum.map
      (fun p => (p.1, p.2.id, p.2.name, pyDumps (PyVal.dict p.2.arguments))),
    tag := 0 }

/-- The post-loop phase and full body of patched_generate_stream once the
mistral/tools gates have passed; ctr is the fresh-uuid supply. -/
def mistralProcessStream (ctr : Nat) (chunks : List MChunk) : List MChunk :=
  let st := chunks.foldl mProc {}
  if st.detected then
    if hasMistralToolCalls st.acc && !(parseMistralToolCalls ctr st.acc).isEmpty then
      st.out ++ [mkMistralToolChunk (parseMistralToolCalls ctr st.acc)]
    else st.out ++ chunks
  else st.out ++ st.lookback

/-- patched_generate_stream of the source: pass-through for non-mistral
models and for requests without tools, full processing otherwise. -/
def mistralPatchedStream (modelId : String) (toolsPresent : Bool) (ctr : Nat)
    (chunks : List MChunk) : List MChunk :=
  if !isMistralModel modelId then chunks
  else if !toolsPresent then chunks
  else mistralProcessStream ctr chunks

/-- Concatenated delta text carried by a chunk sequence. -/
def mTextOf (chunks : List MChunk) : String :=
  String.join (chunks.map (fun c => c.content.getD ""))

/-! ## The GGUF Anthropic streaming adapter
(src/extensions/gguf_adapter.py _generate_stream_async)

The backend stream is a list of chunks plus a flag for an exception raised
mid-iteration (after the listed chunks); the context-budget advisory is an
optional message computed before the loop.  The vendored Qwen tag-dialect
parser invoked by _parse_tool_calls is not under src/, so it enters the model
as an explicit parameter (see ggufTextToolCalls). -/

/-- One entry of a streaming tool_calls delta. -/
structure GToolDelta where
  index : Nat := 0
  id : Option String := none
  fname : Option String := none
  fargs : Option String := none
deriving DecidableEq

/-- One choice delta of a backend chunk; absent content/reasoning strings are
collapsed to "" exactly as the adapter's `.get(..., "") or ...` chain does. -/
structure GDelta where
  content : String := ""
  reasoning : String := ""
  finish : Option String := none
  toolDeltas : List GToolDelta := []
deriving DecidableEq

/-- One backend chunk: optional usage counters and an optional first choice. -/
structure GChunk where
  usage : Option (Nat × Nat) := none
  choice : Option GDelta := none
deriving DecidableEq

/-- Python truthiness of an optional string (`if finish:`). -/
def optTruthy : Option String → Bool
  | some s => s != ""
  | none => false

/-- Assembly state of one streaming tool call. -/
structure GTState where
  id : String := ""
  nm : String := ""
  args : String := ""
deriving DecidableEq

/-- Map lookup in the insertion-ordered index map. -/
def tmapGet (m : List (Nat × GTState)) (i : Nat) : Option GTState :=
  (m.find? (fun p => p.1 == i)).map (fun p => p.2)

/-- Map update (insert at end on a new key, exactly like a Python dict). -/
def tmapSet (i : Nat) (v : GTState) : List (Nat × GTState) → List (Nat × GTState)
  | [] => [(i, v)]
  | (j, w) :: t => if j == i then (i, v) :: t else (j, w) :: tmapSet i v t

/-- Model of f"toolu_\x7buuid.uuid4().hex[:24]\x7d": the n-th freshly drawn id. -/
def mkTooluId (n : Nat) : String := "toolu_" ++ toString n

/-- One tool-call delta applied to the assembly map and the fresh-id counter,
mirroring the id/name/argument accumulation of the source loop. -/
def applyToolDelta (p : List (Nat × GTState) × Nat) (td : GToolDelta) :
    List (Nat × GTState) × Nat :=
  let (m, ctr) := p
  let (m, ctr) :=
    match tmapGet m td.index with
    | some _ => (m, ctr)
    | none =>
      match td.id with
      | some s => (tmapSet td.index { id := s } m, ctr)
      | none => (tmapSet td.index { id := mkTooluId ctr } m, ctr + 1)
  let upd := fun (m : List (Nat × GTState)) (f : GTState → GTState) =>
    match tmapGet m td.index with
    | some cur => tmapSet td.index (f cur) m
    | none => m
  let m := if optTruthy td.id then upd m (fun c => { c with id := td.id.getD "" }) else m
  let m := if optTruthy td.fname then upd m (fun c => { c with nm := td.fname.getD "" }) else m
  let m := if optTruthy td.fargs then upd m (fun c => { c with args := c.args ++ td.fargs.getD "" }) else m
  (m, ctr)

/-- Loop state of _generate_stream_async. -/
structure GLoop where
  acc : String := ""
  inXml : Bool := false
  started : Bool := false
  tmap : List (Nat × GTState) := []
  finish : String := "stop"
  pTok : Nat := 0
  cTok : Nat := 0
  ctr : Nat := 0

/-- Anthropic stream events emitted by the adapter; text delta events carry
the text, tool-use block starts carry id and name, message_delta carries the
resolved stop reason and final usage. -/
inductive StopR where
  | toolUse
  | maxTokens
  | endTurn
deriving DecidableEq

/-- One emitted Anthropic event. -/
inductive GEvent where
  | msgStart
  | blockStartText (i : Nat)
  | blockStartTool (i : Nat) (id nm : String)
  | textDelta (i : Nat) (s : String)
  | jsonDelta (i : Nat) (s : String)
  | blockStop (i : Nat)
  | msgDelta (r : StopR) (inTok outTok : Nat)
  | msgStop
deriving DecidableEq

/-- Usage tracking of one chunk. -/
def gUsageUpd (st : GLoop) (u : Option (Nat × Nat)) : GLoop :=
  match u with
  | some (p, c) => { st with pTok := p, cTok := c }
  | none => st

/-- Finish-reason tracking of one choice delta (`if finish:`). -/
def gFinishUpd (st : GLoop) (f : Option String) : GLoop :=
  if optTruthy f then { st with finish := f.getD "" } else st

/-- Tool-delta assembly of one choice delta. -/
def gToolUpd (st : GLoop) (tds : List GToolDelta) : GLoop :=
  let p := tds.foldl applyToolDelta (st.tmap, st.ctr)
  { st with tmap := p.1, ctr := p.2 }

/-- Text handling of one nonempty effective delta: accumulate, detect the tag
markers on the accumulated text, and (only when no marker has been seen) emit
the text block start if needed and the text delta; cbi is the block index
current throughout the loop. -/
def gTextStep (cbi : Nat) (st : GLoop) (eff : String) : GLoop × List GEvent :=
  let acc := st.acc ++ eff
  let inXml := st.inXml || strHas acc "<function=" || strHas acc "<tool_call>"
  let st2 : GLoop := { st with acc := acc, inXml := inXml }
  if inXml then (st2, [])
  else if !st2.started then
    ({ st2 with started := true }, [.blockStartText cbi, .textDelta cbi eff])
  else (st2, [.textDelta cbi eff])

/-- One iteration of the chunk loop, in source order: usage tracking, then for
a chunk with a choice: finish tracking, tool-delta assembly, and the text
step on the effective delta (content, else reasoning_content). -/
def gProcChunk (cbi : Nat) (st : GLoop) (ch : GChunk) : GLoop × List GEvent :=
  let st := gUsageUpd st ch.usage
  match ch.choice with
  | none => (st, [])
  | some d =>
    let st := gFinishUpd st d.finish
    let st := gToolUpd st d.toolDeltas
    let eff := if d.content != "" then d.content else d.reasoning
    if eff == "" then (st, [])
    else gTextStep cbi st eff

/-- The chunk loop. -/
def gRunLoop (cbi : Nat) : GLoop → List GChunk → GLoop × List GEvent
  | st, [] => (st, [])
  | st, ch :: rest =>
    let (st1, evs1) := gProcChunk cbi st ch
    let (st2, evs2) := gRunLoop cbi st1 rest
    (st2, evs1 ++ evs2)

/-- The backend stream as input to one response: an optional context-budget
advisory message, the chunks delivered, and whether the stream then raised. -/
structure GInput where
  warning : Option String := none
  chunks : List GChunk := []
  raised : Bool := false

/-- Block index at which the response text block lives (the advisory block,
when present, consumed index 0). -/
def ggufBaseIdx (inp : GInput) : Nat := if inp.warning.isSome then 1 else 0

/-- Model of the interrupt notice f"\n[Stream interrupted: \x7be\x7d]"; the
exception text is abstracted away. -/
def interruptNoticeText : String := "\n[Stream interrupted]"

/-- The loop run plus the except-branch recovery of the source: on a raise,
open the text block if needed and append the visible interrupt notice. -/
def ggufPostLoop (inp : GInput) : GLoop × List GEvent :=
  let cbi := ggufBaseIdx inp
  let p := gRunLoop cbi {} inp.chunks
  if inp.raised then
    if p.1.started then (p.1, p.2 ++ [.textDelta cbi interruptNoticeText])
    else ({ p.1 with started := true },
      p.2 ++ [.blockStartText cbi, .textDelta cbi interruptNoticeText])
  else p

/-- Final loop state of a response. -/
def ggufFinalState (inp : GInput) : GLoop := (ggufPostLoop inp).1

/-- Insertion sort by index (`for idx in sorted(streaming_tool_calls.keys())`). -/
def sortIns (p : Nat × GTState) : List (Nat × GTState) → List (Nat × GTState)
  | [] => [p]
  | q :: t => if p.1 ≤ q.1 then p :: q :: t else q :: sortIns p t

/-- Sort the assembly map by index. -/
def sortByKey (m : List (Nat × GTState)) : List (Nat × GTState) :=
  m.foldl (fun acc p => sortIns p acc) []

/-- Structured tool calls recovered from llama-server streaming deltas:
entries with a nonempty name and argument text, arguments json-parsed with
decode failure collapsing to an empty dict.  Each triple is
(id, name, dumped-arguments). -/
def gStructuredCalls (m : List (Nat × GTState)) : List (String × String × String) :=
  (sortByKey m).filterMap (fun p =>
    let tc := p.2
    if tc.nm != "" && tc.args != "" then
      let args := match jsonLoads tc.args with
        | some v => v
        | none => .dict []
      some (tc.id, tc.nm, pyDumps args)
    else none)

/-- A tag-dialect (Qwen XML) tool call as returned by the vendored parser:
name and argument dict. -/
structure TagCall where
  id : String
  nm : String
  arguments : List (String × PyVal)

/-- Modelled from the spec: _parse_tool_calls of src/extensions/gguf_adapter.py
delegates to the Qwen tag-dialect parser of the vendored mlx-omni-server
package, which is not under src/; the parser itself is therefore a parameter
(`qwen`), while the adapter's own marker pre-check and its filter dropping
calls with empty arguments are modelled from the source. -/
def gguFTextToolCalls (qwen : String → List TagCall) (text : String) : List TagCall :=
  if !(strHas text "<function=") && !(strHas text "<tool_call>") then []
  else (qwen text).filter (fun tc => !tc.arguments.isEmpty)

/-- Tool calls of a response as (id, name, dumped-arguments): structured
deltas take precedence; otherwise the accumulated text is parsed. -/
def ggufToolCalls (qwen : String → List TagCall) (inp : GInput) :
    List (String × String × String) :=
  let st := ggufFinalState inp
  if !st.tmap.isEmpty then gStructuredCalls st.tmap
  else if st.acc != "" then
    (gguFTextToolCalls qwen st.acc).map
      (fun tc => (tc.id, tc.nm, pyDumps (PyVal.dict tc.arguments)))
  else []

/-- Tool-use block event triples: open (with id and name), one full-arguments
json delta, close; consecutive indices. -/
def toolBlockEvents : Nat → List (String × String × String) → List GEvent
  | _, [] => []
  | i, (tid, tnm, targs) :: rest =>
    [.blockStartTool i tid tnm, .jsonDelta i targs, .blockStop i] ++
      toolBlockEvents (i + 1) rest

/-- The last truthy finish_reason delivered by the backend ("stop" if none). -/
def ggufBackendFinish (inp : GInput) : String :=
  inp.chunks.foldl
    (fun f ch =>
      match ch.choice with
      | some d => if optTruthy d.finish then d.finish.getD "" else f
      | none => f) "stop"

/-- The advisory-block events emitted before the backend loop. -/
def ggufWarnEvs (inp : GInput) : List GEvent :=
  match inp.warning with
  | some w => [GEvent.blockStartText 0, GEvent.textDelta 0 (w ++ "\n\n"), GEvent.blockStop 0]
  | none => []

/-- Events closing the streamed text block (when one was started). -/
def ggufCloseEvs (inp : GInput) : List GEvent :=
  if (ggufFinalState inp).started then [GEvent.blockStop (ggufBaseIdx inp)] else []

/-- Block index after closing the streamed text block. -/
def ggufIdx2 (inp : GInput) : Nat :=
  if (ggufFinalState inp).started then ggufBaseIdx inp + 1 else ggufBaseIdx inp

/-- The empty text block emitted before tool blocks on a tool-only response. -/
def ggufEmptyEvs (qwen : String → List TagCall) (inp : GInput) : List GEvent :=
  if !(ggufToolCalls qwen inp).isEmpty && !(ggufFinalState inp).started then
    [GEvent.blockStartText (ggufIdx2 inp), GEvent.blockStop (ggufIdx2 inp)]
  else []

/-- Block index at which tool blocks begin. -/
def ggufIdx3 (qwen : String → List TagCall) (inp : GInput) : Nat :=
  if !(ggufToolCalls qwen inp).isEmpty && !(ggufFinalState inp).started then
    ggufIdx2 inp + 1
  else ggufIdx2 inp

/-- The resolved stop reason of the response (the source's precedence: tool
calls, then backend truncation, then the default end of turn). -/
def ggufStopR (qwen : String → List TagCall) (inp : GInput) : StopR :=
  if !(ggufToolCalls qwen inp).isEmpty then StopR.toolUse
  else if (ggufFinalState inp).finish == "length" then StopR.maxTokens
  else StopR.endTurn

/-- The full emitted event sequence of _generate_stream_async: message start,
the optional advisory block, the streamed text block, its close, the empty
text block of a tool-only response, the tool-use blocks, and the terminal
message_delta (resolved stop reason, final usage) plus message_stop. -/
def ggufEvents (qwen : String → List TagCall) (inp : GInput) : List GEvent :=
  [GEvent.msgStart] ++ ggufWarnEvs inp ++ (ggufPostLoop inp).2 ++ ggufCloseEvs inp ++
    ggufEmptyEvs qwen inp ++ toolBlockEvents (ggufIdx3 qwen inp) (ggufToolCalls qwen inp) ++
    [GEvent.msgDelta (ggufStopR qwen inp) (ggufFinalState inp).pTok (ggufFinalState inp).cTok,
      GEvent.msgStop]

/-! ## Well-formedness checker for emitted event sequences

Checks the ordering invariant of claim C8: the sequence ends with exactly one
message_stop, a block opens only at the next unused index with no block open,
deltas address the open block, and every opened block is closed. -/

/-- Event-sequence checker: `o` is the currently open block index, `n` the
next index a block may open at. -/
def wfGo : Option Nat → Nat → List GEvent → Bool
  | _, _, [] => false
  | o, n, e :: rest =>
    match e with
    | .msgStop => o.isNone && rest.isEmpty
    | .msgStart => wfGo o n rest
    | .msgDelta _ _ _ => wfGo o n rest
    | .blockStartText i => o.isNone && i == n && wfGo (some i) n rest
    | .blockStartTool i _ _ => o.isNone && i == n && wfGo (some i) n rest
    | .textDelta i _ => o == some i && wfGo o n rest
    | .jsonDelta i _ => o == some i && wfGo o n rest
    | .blockStop i => o == some i && wfGo none (i + 1) rest

/-- Well-formed event sequence. -/
def wfEvents (evs : List GEvent) : Bool := wfGo none 0 evs

/-- Checker state transformer for a msgStop-free segment. -/
def ckSeg : Option Nat → Nat → List GEvent → Option (Option Nat × Nat)
  | o, n, [] => some (o, n)
  | o, n, e :: rest =>
    match e with
    | .msgStop => none
    | .msgStart => ckSeg o n rest
    | .msgDelta _ _ _ => ckSeg o n rest
    | .blockStartText i => if o.isNone && i == n then ckSeg (some i) n rest else none
    | .blockStartTool i _ _ => if o.isNone && i == n then ckSeg (some i) n rest else none
    | .textDelta i _ => if o == some i then ckSeg o n rest else none
    | .jsonDelta i _ => if o == some i then ckSeg o n rest else none
    | .blockStop i => if o == some i then ckSeg none (i + 1) rest else none

/-- The list of stop reasons carried by message_delta events. -/
def msgDeltaStops (evs : List GEvent) : List StopR :=
  evs.filterMap (fun e =>
    match e with
    | .msgDelta r _ _ => some r
    | _ => none)

/-- The stop-reason resolution rule of the source, stated directly: tool
calls take precedence, then backend-signalled truncation, then the default. -/
def ggufResolvedStop (qwen : String → List TagCall) (inp : GInput) : StopR :=
  if !(ggufToolCalls qwen inp).isEmpty then StopR.toolUse
  else if ggufBackendFinish inp == "length" then StopR.maxTokens
  else StopR.endTurn

/-! ## Generic substring lemmas -/

theorem isPre_append_left {p q cs : List Char} (h : isPre (p ++ q) cs = true) :
    isPre p cs = true := by
  induction p generalizing cs with
  | nil => rfl
  | cons a as ih =>
    cases cs with
    | nil => simp [isPre] at h
    | cons b bs =>
      simp only [List.cons_append, isPre, Bool.and_eq_true] at h ⊢
      exact ⟨h.1, ih h.2⟩

theorem hasSubL_of_append {p q cs : List Char} (h : hasSubL (p ++ q) cs = true) :
    hasSubL p cs = true := by
  induction cs with
  | nil =>
    simp only [hasSubL] at h ⊢
    cases p with
    | nil => rfl
    | cons a as => simp [isPre] at h
  | cons c t ih =>
    simp only [hasSubL, Bool.or_eq_true] at h ⊢
    rcases h with h | h
    · exact Or.inl (isPre_append_left h)
    · exact Or.inr (ih h)

theorem hasSubL_append_right {n b : List Char} (a : List Char)
    (h : hasSubL n b = true) : hasSubL n (a ++ b) = true := by
  induction a with
  | nil => simpa using h
  | cons c t ih =>
    simp only [List.cons_append, hasSubL, Bool.or_eq_true]
    exact Or.inr ih

/-- A substring of the right part of an append is a substring of the whole:
contrapositive form used for marker freedom of emitted suffixes. -/
theorem strHas_suffix_free {pre s sub : String}
    (h : strHas (pre ++ s) sub = false) : strHas s sub = false := by
  by_contra hne
  have hs : strHas s sub = true := by
    cases hval : strHas s sub
    · exact absurd hval hne
    · rfl
  have : strHas (pre ++ s) sub = true := by
    simpa [strHas, String.data_append] using
      hasSubL_append_right pre.data (by simpa [strHas] using hs)
  simp [this] at h

/-- Containing a longer literal implies containing its prefix: used to move
between the full marker "[TOOL_CALLS]" and the detection literal
"[TOOL_CALLS". -/
theorem strHas_of_strHas_extended {s : String} {p q : String}
    (h : strHas s (p ++ q) = true) : strHas s p = true := by
  simpa [strHas] using hasSubL_of_append (by simpa [strHas, String.data_append] using h)

/-! ## Lemmas about the GGUF stream model -/

theorem gUsageUpd_started (st : GLoop) (u : Option (Nat × Nat)) :
    (gUsageUpd st u).started = st.started := by
  cases u with
  | none => rfl
  | some pc => cases pc; rfl

theorem gUsageUpd_finish (st : GLoop) (u : Option (Nat × Nat)) :
    (gUsageUpd st u).finish = st.finish := by
  cases u with
  | none => rfl
  | some pc => cases pc; rfl

theorem gFinishUpd_started (st : GLoop) (f : Option String) :
    (gFinishUpd st f).started = st.started := by
  unfold gFinishUpd; split <;> rfl

theorem gFinishUpd_finish (st : GLoop) (f : Option String) :
    (gFinishUpd st f).finish = if optTruthy f then f.getD "" else st.finish := by
  unfold gFinishUpd; split <;> rfl

theorem gToolUpd_started (st : GLoop) (tds : List GToolDelta) :
    (gToolUpd st tds).started = st.started := rfl

theorem gToolUpd_finish (st : GLoop) (tds : List GToolDelta) :
    (gToolUpd st tds).finish = st.finish := rfl

theorem gTextStep_finish (cbi : Nat) (st : GLoop) (eff : String) :
    (gTextStep cbi st eff).1.finish = st.finish := by
  unfold gTextStep
  dsimp only
  split
  · rfl
  · split <;> rfl

/-- Behaviour of one text step: either nothing is emitted and the started
flag is unchanged, or the delta and (if needed) a block start are emitted,
each emitted text being free of both tag markers. -/
theorem gTextStep_spec (cbi : Nat) (st : GLoop) (eff : String) :
    ((gTextStep cbi st eff).2 = [] ∧ (gTextStep cbi st eff).1.started = st.started) ∨
    (strHas eff "<tool_call>" = false ∧ strHas eff "<function=" = false ∧
      (gTextStep cbi st eff).1.started = true ∧
      ((st.started = true ∧ (gTextStep cbi st eff).2 = [GEvent.textDelta cbi eff]) ∨
       (st.started = false ∧
        (gTextStep cbi st eff).2 = [GEvent.blockStartText cbi, GEvent.textDelta cbi eff]))) := by
  unfold gTextStep
  dsimp only
  by_cases hx : (st.inXml || strHas (st.acc ++ eff) "<function=" ||
      strHas (st.acc ++ eff) "<tool_call>") = true
  · rw [if_pos hx]
    exact Or.inl ⟨rfl, rfl⟩
  · rw [if_neg hx]
    have hx2 : st.inXml = false ∧ strHas (st.acc ++ eff) "<function=" = false ∧
        strHas (st.acc ++ eff) "<tool_call>" = false := by
      rcases h1 : st.inXml <;> rcases h2 : strHas (st.acc ++ eff) "<function=" <;>
        rcases h3 : strHas (st.acc ++ eff) "<tool_call>" <;>
        simp_all
    right
    refine ⟨strHas_suffix_free hx2.2.2, strHas_suffix_free hx2.2.1, ?_, ?_⟩
    · cases hs : st.started
      · rw [if_pos (by simp [hs])]
      · rw [if_neg (by simp [hs])]
    · cases hs : st.started
      · right
        rw [if_pos (by simp [hs])]
        exact ⟨rfl, rfl⟩
      · left
        rw [if_neg (by simp [hs])]
        exact ⟨rfl, rfl⟩

/-- Behaviour of one loop iteration (same shape lifted through usage, finish
and tool-delta bookkeeping). -/
theorem gProcChunk_spec (cbi : Nat) (st : GLoop) (ch : GChunk) :
    ((gProcChunk cbi st ch).2 = [] ∧ (gProcChunk cbi st ch).1.started = st.started) ∨
    (∃ s, strHas s "<tool_call>" = false ∧ strHas s "<function=" = false ∧
      (gProcChunk cbi st ch).1.started = true ∧
      ((st.started = true ∧ (gProcChunk cbi st ch).2 = [GEvent.textDelta cbi s]) ∨
       (st.started = false ∧
        (gProcChunk cbi st ch).2 = [GEvent.blockStartText cbi, GEvent.textDelta cbi s]))) := by
  unfold gProcChunk
  cases hc : ch.choice with
  | none => exact Or.inl ⟨rfl, gUsageUpd_started st ch.usage⟩
  | some d =>
    dsimp only
    have hs1 : (gToolUpd (gFinishUpd (gUsageUpd st ch.usage) d.finish) d.toolDeltas).started
        = st.started := by
      rw [gToolUpd_started, gFinishUpd_started, gUsageUpd_started]
    by_cases he : ((if d.content != "" then d.content else d.reasoning) == "") = true
    · rw [if_pos he]
      exact Or.inl ⟨rfl, hs1⟩
    · rw [if_neg he]
      rcases gTextStep_spec cbi (gToolUpd (gFinishUpd (gUsageUpd st ch.usage) d.finish) d.toolDeltas)
          (if d.content != "" then d.content else d.reasoning) with
        ⟨h1, h2⟩ | ⟨hf1, hf2, hst, hcases⟩
      · exact Or.inl ⟨h1, h2.trans hs1⟩
      · right
        refine ⟨(if d.content != "" then d.content else d.reasoning), hf1, hf2, hst, ?_⟩
        rcases hcases with ⟨ha, hb⟩ | ⟨ha, hb⟩
        · exact Or.inl ⟨hs1 ▸ ha, hb⟩
        · exact Or.inr ⟨hs1 ▸ ha, hb⟩

/-- ckSeg distributes over append. -/
theorem ckSeg_append {a : List GEvent} :
    ∀ {b : List GEvent} {o : Option Nat} {n : Nat} {o2 : Option Nat} {n2 : Nat},
      ckSeg o n a = some (o2, n2) → ckSeg o n (a ++ b) = ckSeg o2 n2 b := by
  induction a with
  | nil =>
    intro b o n o2 n2 h
    simp only [ckSeg, Option.some.injEq, Prod.mk.injEq] at h
    obtain ⟨rfl, rfl⟩ := h
    rfl
  | cons e t ih =>
    intro b o n o2 n2 h
    cases e <;> simp only [ckSeg, List.cons_append] at h ⊢
    case msgStart => exact ih h
    case msgDelta => exact ih h
    case msgStop => exact absurd h (by simp)
    case blockStartText i =>
      split at h
      · rename_i hcond
        rw [if_pos hcond]
        exact ih h
      · exact absurd h (by simp)
    case blockStartTool i id nm =>
      split at h
      · rename_i hcond
        rw [if_pos hcond]
        exact ih h
      · exact absurd h (by simp)
    case textDelta i s =>
      split at h
      · rename_i hcond
        rw [if_pos hcond]
        exact ih h
      · exact absurd h (by simp)
    case jsonDelta i s =>
      split at h
      · rename_i hcond
        rw [if_pos hcond]
        exact ih h
      · exact absurd h (by simp)
    case blockStop i =>
      split at h
      · rename_i hcond
        rw [if_pos hcond]
        exact ih h
      · exact absurd h (by simp)

/-- Running the full checker over a msgStop-free segment continues with the
segment's final state. -/
theorem wfGo_append {a : List GEvent} :
    ∀ {b : List GEvent} {o : Option Nat} {n : Nat} {o2 : Option Nat} {n2 : Nat},
      ckSeg o n a = some (o2, n2) → wfGo o n (a ++ b) = wfGo o2 n2 b := by
  induction a with
  | nil =>
    intro b o n o2 n2 h
    simp only [ckSeg, Option.some.injEq, Prod.mk.injEq] at h
    obtain ⟨rfl, rfl⟩ := h
    rfl
  | cons e t ih =>
    intro b o n o2 n2 h
    cases e <;> simp only [ckSeg, wfGo, List.cons_append] at h ⊢
    case msgStart => exact ih h
    case msgDelta => exact ih h
    case msgStop => exact absurd h (by simp)
    case blockStartText i =>
      split at h
      · rename_i hcond
        simp only [Bool.and_eq_true] at hcond
        rw [hcond.1, hcond.2, Bool.true_and, Bool.true_and]
        exact ih h
      · exact absurd h (by simp)
    case blockStartTool i id nm =>
      split at h
      · rename_i hcond
        simp only [Bool.and_eq_true] at hcond
        rw [hcond.1, hcond.2, Bool.true_and, Bool.true_and]
        exact ih h
      · exact absurd h (by simp)
    case textDelta i s =>
      split at h
      · rename_i hcond
        rw [hcond, Bool.true_and]
        exact ih h
      · exact absurd h (by simp)
    case jsonDelta i s =>
      split at h
      · rename_i hcond
        rw [hcond, Bool.true_and]
        exact ih h
      · exact absurd h (by simp)
    case blockStop i =>
      split at h
      · rename_i hcond
        rw [hcond, Bool.true_and]
        exact ih h
      · exact absurd h (by simp)

/-- Open-block descriptor corresponding to the started flag. -/
def obOf (b : Bool) (cbi : Nat) : Option Nat := if b then some cbi else none

/-- ckSeg accepts the event run of the chunk loop, ending with the open-block
state given by the final started flag; and every emitted event is either the
single block start or a marker-free text delta, all at index cbi. -/
theorem gRunLoop_spec (cbi : Nat) :
    ∀ (chs : List GChunk) (st : GLoop),
      ckSeg (obOf st.started cbi) cbi (gRunLoop cbi st chs).2 =
        some (obOf (gRunLoop cbi st chs).1.started cbi, cbi) ∧
      (∀ e ∈ (gRunLoop cbi st chs).2,
        e = GEvent.blockStartText cbi ∨
        ∃ s, e = GEvent.textDelta cbi s ∧
          strHas s "<tool_call>" = false ∧ strHas s "<function=" = false) := by
  intro chs
  induction chs with
  | nil =>
    intro st
    exact ⟨rfl, by simp [gRunLoop]⟩
  | cons ch rest ih =>
    intro st
    have hstep := gProcChunk_spec cbi st ch
    have hrest := ih (gProcChunk cbi st ch).1
    have hrun : gRunLoop cbi st (ch :: rest) =
        ((gRunLoop cbi (gProcChunk cbi st ch).1 rest).1,
          (gProcChunk cbi st ch).2 ++ (gRunLoop cbi (gProcChunk cbi st ch).1 rest).2) := by
      simp [gRunLoop]
    rw [hrun]
    constructor
    · have hseg : ckSeg (obOf st.started cbi) cbi (gProcChunk cbi st ch).2 =
          some (obOf (gProcChunk cbi st ch).1.started cbi, cbi) := by
        rcases hstep with ⟨hev, hpres⟩ | ⟨s, _, _, hst, ⟨ha, hb⟩ | ⟨ha, hb⟩⟩
        · rw [hev, hpres]; rfl
        · rw [hb, hst, ha]
          simp [ckSeg, obOf]
        · rw [hb, hst, ha]
          simp [ckSeg, obOf]
      exact (ckSeg_append hseg).trans hrest.1
    · intro e he
      rcases List.mem_append.mp he with he | he
      · rcases hstep with ⟨hev, _⟩ | ⟨s, hf1, hf2, _, ⟨_, hb⟩ | ⟨_, hb⟩⟩
        · rw [hev] at he; cases he
        · rw [hb] at he
          rcases List.mem_singleton.mp he with rfl
          exact Or.inr ⟨s, rfl, hf1, hf2⟩
        · rw [hb] at he
          simp only [List.mem_cons, List.mem_singleton, List.not_mem_nil, or_false] at he
          rcases he with rfl | rfl
          · exact Or.inl rfl
          · exact Or.inr ⟨s, rfl, hf1, hf2⟩
      · exact hrest.2 e he

/-- A loop that ends with no text block started emitted nothing. -/
theorem gRunLoop_not_started (cbi : Nat) :
    ∀ (chs : List GChunk) (st : GLoop),
      (gRunLoop cbi st chs).1.started = false →
      (gRunLoop cbi st chs).2 = [] ∧ st.started = false := by
  intro chs
  induction chs with
  | nil => intro st h; exact ⟨rfl, h⟩
  | cons ch rest ih =>
    intro st h
    have hrun : gRunLoop cbi st (ch :: rest) =
        ((gRunLoop cbi (gProcChunk cbi st ch).1 rest).1,
          (gProcChunk cbi st ch).2 ++ (gRunLoop cbi (gProcChunk cbi st ch).1 rest).2) := by
      simp [gRunLoop]
    rw [hrun] at h ⊢
    dsimp only at h ⊢
    have hmid := ih (gProcChunk cbi st ch).1 h
    rcases gProcChunk_spec cbi st ch with ⟨hev, hpres⟩ | ⟨s, _, _, hst, _⟩
    · rw [hev, hmid.1]
      exact ⟨rfl, hpres ▸ hmid.2⟩
    · rw [hst] at hmid
      exact absurd hmid.2 (by simp)

/-- Step function for the backend finish reason. -/
def gFinStep (f : String) (ch : GChunk) : String :=
  match ch.choice with
  | some d => if optTruthy d.finish then d.finish.getD "" else f
  | none => f

theorem gProcChunk_finish (cbi : Nat) (st : GLoop) (ch : GChunk) :
    (gProcChunk cbi st ch).1.finish = gFinStep st.finish ch := by
  unfold gProcChunk gFinStep
  cases hc : ch.choice with
  | none => exact gUsageUpd_finish st ch.usage
  | some d =>
    dsimp only
    split <;> split <;>
      first
      | rw [gToolUpd_finish, gFinishUpd_finish, gUsageUpd_finish]
      | rw [gTextStep_finish, gToolUpd_finish, gFinishUpd_finish, gUsageUpd_finish]

/-- The loop's finish reason is the fold of the backend finish reasons. -/
theorem gRunLoop_finish (cbi : Nat) :
    ∀ (chs : List GChunk) (st : GLoop),
      (gRunLoop cbi st chs).1.finish = chs.foldl gFinStep st.finish := by
  intro chs
  induction chs with
  | nil => intro st; rfl
  | cons ch rest ih =>
    intro st
    have h2 : (gRunLoop cbi st (ch :: rest)).1 =
        (gRunLoop cbi (gProcChunk cbi st ch).1 rest).1 := by
      simp [gRunLoop]
    rw [h2, ih, List.foldl_cons, gProcChunk_finish]

theorem ggufPostLoop_ckSeg (inp : GInput) :
    ckSeg none (ggufBaseIdx inp) (ggufPostLoop inp).2 =
      some (obOf (ggufPostLoop inp).1.started (ggufBaseIdx inp), ggufBaseIdx inp) := by
  have base := (gRunLoop_spec (ggufBaseIdx inp) inp.chunks {}).1
  unfold ggufPostLoop
  dsimp only
  cases hr : inp.raised with
  | false =>
    rw [if_neg (by simp)]
    simpa [obOf] using base
  | true =>
    rw [if_pos rfl]
    cases hst : (gRunLoop (ggufBaseIdx inp) {} inp.chunks).1.started with
    | true =>
      rw [hst] at base
      rw [if_pos rfl]
      dsimp only
      rw [ckSeg_append (by simpa [obOf] using base)]
      rw [hst]
      simp [ckSeg, obOf]
    | false =>
      rw [hst] at base
      rw [if_neg (by simp)]
      dsimp only
      rw [ckSeg_append (by simpa [obOf] using base)]
      simp [ckSeg, obOf]

theorem ggufPostLoop_members (inp : GInput) :
    ∀ e ∈ (ggufPostLoop inp).2,
      e = GEvent.blockStartText (ggufBaseIdx inp) ∨
      ∃ s, e = GEvent.textDelta (ggufBaseIdx inp) s ∧
        strHas s "<tool_call>" = false ∧ strHas s "<function=" = false := by
  have base := (gRunLoop_spec (ggufBaseIdx inp) inp.chunks {}).2
  have hnotice : strHas interruptNoticeText "<tool_call>" = false ∧
      strHas interruptNoticeText "<function=" = false := by decide
  unfold ggufPostLoop
  dsimp only
  cases hr : inp.raised with
  | false =>
    rw [if_neg (by simp)]
    exact base
  | true =>
    rw [if_pos rfl]
    cases hst : (gRunLoop (ggufBaseIdx inp) {} inp.chunks).1.started with
    | true =>
      rw [if_pos rfl]
      intro e he
      dsimp only at he
      rcases List.mem_append.mp he with he | he
      · exact base e he
      · rcases List.mem_singleton.mp he with rfl
        exact Or.inr ⟨interruptNoticeText, rfl, hnotice⟩
    | false =>
      rw [if_neg (by simp)]
      intro e he
      dsimp only at he
      rcases List.mem_append.mp he with he | he
      · exact base e he
      · simp only [List.mem_cons, List.mem_singleton, List.not_mem_nil, or_false] at he
        rcases he with rfl | rfl
        · exact Or.inl rfl
        · exact Or.inr ⟨interruptNoticeText, rfl, hnotice⟩

theorem ggufPostLoop_finish (inp : GInput) :
    (ggufPostLoop inp).1.finish = ggufBackendFinish inp := by
  have hloop := gRunLoop_finish (ggufBaseIdx inp) inp.chunks {}
  unfold ggufPostLoop ggufBackendFinish
  dsimp only
  cases hr : inp.raised with
  | false =>
    rw [if_neg (by simp)]
    exact hloop
  | true =>
    rw [if_pos rfl]
    cases hst : (gRunLoop (ggufBaseIdx inp) {} inp.chunks).1.started with
    | true =>
      rw [if_pos rfl]
      exact hloop
    | false =>
      rw [if_neg (by simp)]
      exact hloop

theorem ggufPostLoop_not_started (inp : GInput) :
    (ggufPostLoop inp).1.started = false →
      (ggufPostLoop inp).2 = [] ∧ inp.raised = false := by
  unfold ggufPostLoop
  dsimp only
  cases hr : inp.raised with
  | false =>
    rw [if_neg (by simp)]
    intro h
    exact ⟨(gRunLoop_not_started (ggufBaseIdx inp) inp.chunks {} h).1, rfl⟩
  | true =>
    rw [if_pos rfl]
    intro h
    exfalso
    cases hst : (gRunLoop (ggufBaseIdx inp) {} inp.chunks).1.started with
    | true =>
      rw [hst, if_pos rfl] at h
      dsimp only at h
      rw [hst] at h
      simp at h
    | false =>
      rw [hst, if_neg (by simp)] at h
      simp at h

/-- Tool blocks check out: open at the running index, delta, close. -/
theorem ckSeg_toolBlockEvents :
    ∀ (tcs : List (String × String × String)) (i : Nat),
      ckSeg none i (toolBlockEvents i tcs) = some (none, i + tcs.length) := by
  intro tcs
  induction tcs with
  | nil => intro i; simp [toolBlockEvents, ckSeg]
  | cons tc rest ih =>
    intro i
    obtain ⟨tid, tnm, targs⟩ := tc
    have h1 : ckSeg none i (toolBlockEvents i ((tid, tnm, targs) :: rest)) =
        ckSeg none (i + 1) (toolBlockEvents (i + 1) rest) := by
      simp only [toolBlockEvents]
      have hseg : ckSeg none i [GEvent.blockStartTool i tid tnm, GEvent.jsonDelta i targs,
          GEvent.blockStop i] = some (none, i + 1) := by simp [ckSeg]
      rw [ckSeg_append hseg]
    rw [h1, ih (i + 1), List.length_cons]
    have he2 : i + 1 + rest.length = i + (rest.length + 1) := by omega
    rw [he2]

/-- Tool blocks contain no text deltas and no message deltas. -/
theorem toolBlockEvents_members :
    ∀ (tcs : List (String × String × String)) (i : Nat), ∀ e ∈ toolBlockEvents i tcs,
      (∃ j a b, e = GEvent.blockStartTool j a b) ∨ (∃ j s, e = GEvent.jsonDelta j s) ∨
      (∃ j, e = GEvent.blockStop j) := by
  intro tcs
  induction tcs with
  | nil => intro i e he; simp [toolBlockEvents] at he
  | cons tc rest ih =>
    intro i e he
    obtain ⟨tid, tnm, targs⟩ := tc
    simp only [toolBlockEvents, List.cons_append, List.mem_cons, List.mem_append,
      List.nil_append] at he
    rcases he with rfl | rfl | rfl | he
    · exact Or.inl ⟨i, tid, tnm, rfl⟩
    · exact Or.inr (Or.inl ⟨i, targs, rfl⟩)
    · exact Or.inr (Or.inr ⟨i, rfl⟩)
    · exact ih (i + 1) e he

/-- msgDeltaStops ignores everything except message deltas. -/
theorem msgDeltaStops_append (a b : List GEvent) :
    msgDeltaStops (a ++ b) = msgDeltaStops a ++ msgDeltaStops b := by
  simp [msgDeltaStops]

theorem msgDeltaStops_toolBlockEvents (tcs : List (String × String × String)) (i : Nat) :
    msgDeltaStops (toolBlockEvents i tcs) = [] := by
  have := toolBlockEvents_members tcs i
  induction tcs generalizing i with
  | nil => simp [toolBlockEvents, msgDeltaStops]
  | cons tc rest ih =>
    obtain ⟨tid, tnm, targs⟩ := tc
    simp only [toolBlockEvents, msgDeltaStops_append]
    rw [ih (i + 1) (toolBlockEvents_members rest (i + 1))]
    simp [msgDeltaStops]

theorem msgDeltaStops_postLoop (inp : GInput) :
    msgDeltaStops (ggufPostLoop inp).2 = [] := by
  have hm := ggufPostLoop_members inp
  unfold msgDeltaStops
  rw [List.filterMap_eq_nil_iff]
  intro e he
  rcases hm e he with rfl | ⟨s, rfl, _⟩ <;> rfl

/-! ## Lemmas about the Mistral stream model -/

/-- Concatenated delta text of a backend chunk sequence (the input side of
the round-trip property). -/
def mInputText : List MChunk → String
  | [] => ""
  | c :: t => c.content.getD "" ++ mInputText t

theorem mPush_subset (lookback : List MChunk) (ch : MChunk) :
    (∀ c ∈ (mPush lookback ch).1, c ∈ lookback ++ [ch]) ∧
    (∀ x, (mPush lookback ch).2 = some x → x ∈ lookback ++ [ch]) := by
  unfold mPush
  dsimp only
  have hdropmem : ∀ c ∈ (lookback ++ [ch]).drop 1, c ∈ lookback ++ [ch] := by
    intro c hc
    exact List.mem_of_mem_drop hc
  by_cases hlen : (lookback ++ [ch]).length > 3
  · rw [if_pos hlen]
    split
    · split
      next x rest heq =>
        constructor
        · intro c hc
          exact hdropmem c hc
        · intro y hy
          simp only [Option.some.injEq] at hy
          subst hy
          refine hdropmem x ?_
          rw [heq]
          exact List.mem_cons_self x rest
      next heq =>
        exact ⟨fun c hc => hdropmem c hc, fun y hy => by cases hy⟩
    · exact ⟨fun c hc => hdropmem c hc, fun y hy => by cases hy⟩
  · rw [if_neg hlen]
    split
    · split
      next x rest heq =>
        constructor
        · intro c hc
          exact hc
        · intro y hy
          simp only [Option.some.injEq] at hy
          subst hy
          rw [heq]
          exact List.mem_cons_self x rest
      next heq =>
        exact ⟨fun c hc => hc, fun y hy => by cases hy⟩
    · exact ⟨fun c hc => hc, fun y hy => by cases hy⟩

theorem mProc_acc (st : MState) (ch : MChunk) :
    (mProc st ch).acc = st.acc ++ ch.content.getD "" := by
  unfold mProc
  dsimp only
  repeat' split
  all_goals rfl

theorem foldl_mProc_acc :
    ∀ (chunks : List MChunk) (st : MState),
      (chunks.foldl mProc st).acc = st.acc ++ mInputText chunks := by
  intro chunks
  induction chunks with
  | nil =>
    intro st
    show st.acc = st.acc ++ ""
    rw [String.append_empty]
  | cons ch rest ih =>
    intro st
    rw [List.foldl_cons, ih, mProc_acc]
    show st.acc ++ ch.content.getD "" ++ mInputText rest =
      st.acc ++ (ch.content.getD "" ++ mInputText rest)
    rw [String.append_assoc]

/-- Invariant of the stream loop: while no marker has been detected the
accumulated text is free of the detection literal, and every chunk held in
the yielded list or the lookback deque has content free of it. -/
def mInv (st : MState) : Prop :=
  (st.detected = false → strHas st.acc "[TOOL_CALLS" = false) ∧
  (∀ c ∈ st.out ++ st.lookback, strHas (c.content.getD "") "[TOOL_CALLS" = false)

theorem mProc_inv (st : MState) (ch : MChunk) (h : mInv st) : mInv (mProc st ch) := by
  obtain ⟨h1, h2⟩ := h
  unfold mProc
  dsimp only
  by_cases hd : st.detected = true
  · rw [if_pos hd]
    refine ⟨fun hfalse => ?_, h2⟩
    rw [hd] at hfalse
    cases hfalse
  · rw [if_neg hd]
    by_cases hm : strHas (st.acc ++ ch.content.getD "") "[TOOL_CALLS" = true
    · rw [if_pos hm]
      exact ⟨fun hfalse => (by cases hfalse), h2⟩
    · rw [if_neg hm]
      have hmf : strHas (st.acc ++ ch.content.getD "") "[TOOL_CALLS" = false := by
        cases hv : strHas (st.acc ++ ch.content.getD "") "[TOOL_CALLS"
        · rfl
        · exact absurd hv hm
      have hchf : strHas (ch.content.getD "") "[TOOL_CALLS" = false :=
        strHas_suffix_free hmf
      refine ⟨fun _ => hmf, ?_⟩
      intro c hc
      dsimp only at hc
      have hsub := mPush_subset st.lookback ch
      simp only [List.mem_append, or_assoc] at hc
      have hsplit : c ∈ st.out ++ st.lookback ∨ c = ch := by
        rcases hc with hc2 | hc2 | hc2
        · exact Or.inl (List.mem_append.mpr (Or.inl hc2))
        · rcases hopt : (mPush st.lookback ch).2 with _ | x
          · rw [hopt] at hc2
            cases hc2
          · rw [hopt] at hc2
            rcases List.mem_singleton.mp hc2 with rfl
            have hy := hsub.2 c hopt
            rcases List.mem_append.mp hy with h3 | h3
            · exact Or.inl (List.mem_append.mpr (Or.inr h3))
            · exact Or.inr (List.mem_singleton.mp h3)
        · have hy := hsub.1 c hc2
          rcases List.mem_append.mp hy with h3 | h3
          · exact Or.inl (List.mem_append.mpr (Or.inr h3))
          · exact Or.inr (List.mem_singleton.mp h3)
      rcases hsplit with hin | rfl
      · exact h2 c hin
      · exact hchf

theorem foldl_mProc_inv :
    ∀ (chunks : List MChunk) (st : MState), mInv st → mInv (chunks.foldl mProc st) := by
  intro chunks
  induction chunks with
  | nil => intro st h; exact h
  | cons ch rest ih =>
    intro st h
    exact ih (mProc st ch) (mProc_inv st ch h)

theorem mInv_init : mInv ({} : MState) := by
  constructor
  · intro _
    decide
  · intro c hc
    simp at hc

/-- A full marker in the concatenated input forces detection. -/
theorem mistral_detected_of_marker (chunks : List MChunk)
    (h : strHas (mInputText chunks) "[TOOL_CALLS]" = true) :
    (chunks.foldl mProc {}).detected = true := by
  by_contra hne
  have hd : (chunks.foldl mProc {}).detected = false := by
    cases hv : (chunks.foldl mProc {}).detected
    · rfl
    · exact absurd hv hne
  have hinv := foldl_mProc_inv chunks {} mInv_init
  have hfree := hinv.1 hd
  rw [foldl_mProc_acc] at hfree
  have hacc : strHas (mInputText chunks) "[TOOL_CALLS" = true := by
    have heq : ("[TOOL_CALLS" ++ "]" : String) = "[TOOL_CALLS]" := by decide
    exact strHas_of_strHas_extended (p := "[TOOL_CALLS") (q := "]") (by rw [heq]; exact h)
  have hnil : (("" : String) ++ mInputText chunks) = mInputText chunks := by
    simp
  rw [hnil, hacc] at hfree
  cases hfree

/-- On the successful tool-call path the output is the pre-detection yields
followed by the single aggregated tool chunk. -/
theorem mistral_success_eq (ctr : Nat) (chunks : List MChunk)
    (h1 : hasMistralToolCalls (mInputText chunks) = true)
    (h2 : (parseMistralToolCalls ctr (mInputText chunks)).isEmpty = false) :
    mistralProcessStream ctr chunks =
      (chunks.foldl mProc {}).out ++
        [mkMistralToolChunk (parseMistralToolCalls ctr (mInputText chunks))] := by
  have hmk : strHas (mInputText chunks) "[TOOL_CALLS]" = true := by
    unfold hasMistralToolCalls at h1
    simp only [Bool.and_eq_true] at h1
    exact h1.1.2
  have hdet := mistral_detected_of_marker chunks hmk
  unfold mistralProcessStream
  dsimp only
  have hacc : (chunks.foldl mProc {}).acc = mInputText chunks := by
    rw [foldl_mProc_acc]
    simp
  rw [hdet, hacc]
  rw [if_pos rfl]
  rw [if_pos (by rw [h1, h2]; rfl)]

/-! ## Segment lemmas for the assembled GGUF event sequence -/

theorem ggufPostLoop_ckSeg2 (inp : GInput) :
    ckSeg none (ggufBaseIdx inp) (ggufPostLoop inp).2 =
      some (obOf (ggufFinalState inp).started (ggufBaseIdx inp), ggufBaseIdx inp) :=
  ggufPostLoop_ckSeg inp

theorem ckSeg_warnEvs (inp : GInput) :
    ckSeg none 0 (ggufWarnEvs inp) = some (none, ggufBaseIdx inp) := by
  unfold ggufWarnEvs ggufBaseIdx
  cases hw : inp.warning with
  | none => rfl
  | some w => rfl

theorem ckSeg_closeEvs (inp : GInput) :
    ckSeg (obOf (ggufFinalState inp).started (ggufBaseIdx inp)) (ggufBaseIdx inp)
      (ggufCloseEvs inp) = some (none, ggufIdx2 inp) := by
  unfold ggufCloseEvs ggufIdx2 obOf
  cases hst : (ggufFinalState inp).started with
  | false => rfl
  | true =>
    rw [if_pos rfl, if_pos rfl, if_pos rfl]
    simp [ckSeg]

theorem ckSeg_emptyEvs (qwen : String → List TagCall) (inp : GInput) :
    ckSeg none (ggufIdx2 inp) (ggufEmptyEvs qwen inp) = some (none, ggufIdx3 qwen inp) := by
  unfold ggufEmptyEvs ggufIdx3
  by_cases h : (!(ggufToolCalls qwen inp).isEmpty && !(ggufFinalState inp).started) = true
  · rw [if_pos h, if_pos h]
    simp [ckSeg]
  · rw [if_neg h, if_neg h]
    rfl

theorem msgDeltaStops_warnEvs (inp : GInput) : msgDeltaStops (ggufWarnEvs inp) = [] := by
  unfold ggufWarnEvs
  cases inp.warning <;> rfl

theorem msgDeltaStops_closeEvs (inp : GInput) : msgDeltaStops (ggufCloseEvs inp) = [] := by
  unfold ggufCloseEvs
  split <;> rfl

theorem msgDeltaStops_emptyEvs (qwen : String → List TagCall) (inp : GInput) :
    msgDeltaStops (ggufEmptyEvs qwen inp) = [] := by
  unfold ggufEmptyEvs
  split <;> rfl

/-! ## Fresh-id independence of the parsers -/

theorem buildMistralCalls_proj :
    ∀ (ms : List (String × String)) (n m : Nat) (seen : List String),
      (buildMistralCalls n seen ms).map (fun c => (c.name, c.arguments)) =
        (buildMistralCalls m seen ms).map (fun c => (c.name, c.arguments)) := by
  intro ms
  induction ms with
  | nil => intro n m seen; rfl
  | cons p rest ih =>
    intro n m seen
    obtain ⟨nm, ag⟩ := p
    unfold buildMistralCalls
    dsimp only
    split
    · exact ih n m _
    · split
      · exact ih n m _
      · simp only [List.map_cons]
        rw [ih (n + 1) (m + 1) _]

theorem buildHarmonyCalls_proj :
    ∀ (ms : List (String × String)) (n m : Nat) (seen : List String),
      (buildHarmonyCalls n seen ms).map (fun c => (c.name, c.arguments)) =
        (buildHarmonyCalls m seen ms).map (fun c => (c.name, c.arguments)) := by
  intro ms
  induction ms with
  | nil => intro n m seen; rfl
  | cons p rest ih =>
    intro n m seen
    obtain ⟨nm, ag⟩ := p
    unfold buildHarmonyCalls
    dsimp only
    split
    · exact ih n m _
    · split
      · simp only [List.map_cons]
        rw [ih (n + 1) (m + 1) _]
      · split
        · split
          · exact ih n m _
          · simp only [List.map_cons]
            rw [ih (n + 1) (m + 1) _]
        · exact ih n m _

/-! ## The claims -/

/-- C1: the claim states that for marker-free delta sequences the emitted
text is the exact concatenation of the input text fields.  The code violates
it: the Mistral adapter's lookback deque yields its oldest entry when full
but never pops it, and the end-of-stream flush re-yields the whole deque, so
the marker-free three-chunk stream "a","b","c" through a Mistral request with
tools comes out as "aabc" -- the third-from-last chunk is duplicated.  This
theorem evaluates the adapter at that failing input. -/
theorem C1_lookback_duplication :
    mTextOf (mistralPatchedStream "mistral-7b" true 0
      [{ content := some "a" }, { content := some "b" }, { content := some "c" }]) = "aabc" ∧
    mInputText
      [{ content := some "a" }, { content := some "b" }, { content := some "c" }] = "abc" ∧
    ("aabc" : String) ≠ "abc" := by
  refine ⟨by decide, by decide, by decide⟩

/-- C3: the claim states that when a marker is detected but the parser
returns zero tool calls, the buffered text is released exactly once.  The
code violates it on both cited paths: the Mistral adapter re-yields ALL
chunks, duplicating the two chunks already streamed out of the lookback
before detection ("ab" appears twice below); and the GGUF adapter simply
drops the withheld text (the accumulated buffer is nonempty but no text
event at all is emitted).  This theorem evaluates both adapters at failing
inputs on which the selected parser returns zero calls. -/
theorem C3_failed_parse_fallback_violation :
    mTextOf (mistralProcessStream 0
      [{ content := some "a" }, { content := some "b" }, { content := some "c" },
       { content := some "d" }, { content := some "[TOOL_CALLS]x[ARGS]\x7b@@@\x7d" }]) =
      "ababcd[TOOL_CALLS]x[ARGS]\x7b@@@\x7d" ∧
    parseMistralToolCalls 0 "abcd[TOOL_CALLS]x[ARGS]\x7b@@@\x7d" = [] ∧
    hasMistralToolCalls "abcd[TOOL_CALLS]x[ARGS]\x7b@@@\x7d" = true ∧
    ggufEvents (fun _ => [])
      { chunks := [{ choice := some { content := "<tool_call>oops" } }] } =
      [GEvent.msgStart, GEvent.msgDelta StopR.endTurn 0 0, GEvent.msgStop] ∧
    (ggufFinalState
      { chunks := [{ choice := some { content := "<tool_call>oops" } }] }).acc =
      "<tool_call>oops" := by
  refine ⟨by decide, rfl, by decide, by decide, by decide⟩

/-- C4 counterexample: the claim states that a call whose argument text
yields zero recoverable key/value pairs is dropped rather than emitted with
empty arguments.  The code violates it when the argument text contains no
JSON object at all: _parse_json_args returns an empty dict (not None), so
the call is emitted with empty arguments. -/
theorem C4_counterexample_empty_args_emitted :
    (parseMistralToolCalls 0 "[TOOL_CALLS]foo[ARGS]xyz").map
      (fun c => (c.name, c.arguments)) = [("foo", [])] := by
  rfl

/-- C4 amended: for every argument text the repair ladder runs in order --
brace normalisation (cut to the first opening brace, truncate to or append a
closing one), then a strict JSON parse whose dict result is final, then the
regex key/value scraper -- and a call is dropped exactly when its repaired
argument text fails the strict parse AND the scraper recovers zero key/value
pairs.  A call whose argument text is empty or has no brace at all, or whose
repaired text parses to the empty object, is emitted with empty arguments
rather than dropped; a Some verdict of the ladder always emits the call at
the builder and a None verdict always drops it (likewise for the harmony
builder, where a strict-parse success always emits and the falsy check runs
only on the scraper fallback).  The spec's truncated search example repairs
to one search call with arguments q = "weather". -/
theorem C4_repair_ladder :
    (∀ (s r : String) (kvs : List (String × PyVal)),
      mRepairBraces s = some r → jsonLoads r = some (.dict kvs) →
      parseJsonArgs s = some kvs) ∧
    (∀ (s r : String),
      mRepairBraces s = some r → jsonLoads r = none →
      parseJsonArgs s = mScrapeMalformed r) ∧
    (∀ s : String, parseJsonArgs s = none ↔
      ∃ r, mRepairBraces s = some r ∧ jsonLoads r = none ∧ mScrapeMalformed r = none) ∧
    (∀ s : String, mRepairBraces s = none → parseJsonArgs s = some []) ∧
    (∀ (ctr : Nat) (seen : List String) (nm ag : String) (rest : List (String × String)),
      seen.contains (pyStrip nm ++ ":" ++ pyStrip ag) = false →
      (parseJsonArgs (pyStrip ag) = none →
        buildMistralCalls ctr seen ((nm, ag) :: rest) =
          buildMistralCalls ctr ((pyStrip nm ++ ":" ++ pyStrip ag) :: seen) rest) ∧
      (∀ args, parseJsonArgs (pyStrip ag) = some args →
        buildMistralCalls ctr seen ((nm, ag) :: rest) =
          { id := mkCallId ctr, name := pyStrip nm, arguments := args } ::
            buildMistralCalls (ctr + 1) ((pyStrip nm ++ ":" ++ pyStrip ag) :: seen) rest)) ∧
    (∀ (ctr : Nat) (seen : List String) (nm ag : String) (rest : List (String × String)),
      seen.contains (nm ++ ":" ++ ag) = false →
      (∀ v, jsonLoads (hRepairBraces ag) = some v →
        buildHarmonyCalls ctr seen ((nm, ag) :: rest) =
          { id := mkCallId ctr, name := nm, arguments := v } ::
            buildHarmonyCalls (ctr + 1) ((nm ++ ":" ++ ag) :: seen) rest) ∧
      (jsonLoads (hRepairBraces ag) = none →
        ∀ v, gScrapeMalformed (hRepairBraces ag) = some v → pyFalsy v = true →
        buildHarmonyCalls ctr seen ((nm, ag) :: rest) =
          buildHarmonyCalls ctr ((nm ++ ":" ++ ag) :: seen) rest)) ∧
    ((parseMistralToolCalls 0 "[TOOL_CALLS]search[ARGS]\x7b\"q\": \"weather\"").map
        (fun c => (c.name, c.arguments)) = [("search", [("q", PyVal.str "weather")])] ∧
      parseMistralToolCalls 0 "[TOOL_CALLS]foo[ARGS]\x7b@@@\x7d" = [] ∧
      (parseMistralToolCalls 0 "[TOOL_CALLS]foo[ARGS]\x7b").map
        (fun c => (c.name, c.arguments)) = [("foo", [])] ∧
      (parseMistralToolCalls 0 "[TOOL_CALLS]foo[ARGS]xyz").map
        (fun c => (c.name, c.arguments)) = [("foo", [])]) := by
  have hnil : ∀ r : String, mRepairBraces "" = some r → False := by
    intro r h
    rw [show mRepairBraces "" = none from rfl] at h
    exact Option.noConfusion h
  refine ⟨?_, ?_, ?_, ?_, ?_, ?_, rfl, rfl, rfl, rfl⟩
  · intro s r kvs h1 h2
    unfold parseJsonArgs
    cases hs : s == ""
    · rw [if_neg (by simp_all)]
      rw [h1]
      dsimp only
      rw [h2]
    · exact absurd h1 (by rw [show s = "" from by simpa using hs]; exact fun h => hnil r h)
  · intro s r h1 h2
    unfold parseJsonArgs
    cases hs : s == ""
    · rw [if_neg (by simp_all)]
      rw [h1]
      dsimp only
      rw [h2]
    · exact absurd h1 (by rw [show s = "" from by simpa using hs]; exact fun h => hnil r h)
  · intro s
    constructor
    · intro h
      unfold parseJsonArgs at h
      split at h
      · exact Option.noConfusion h
      · cases hrep : mRepairBraces s with
        | none => rw [hrep] at h; exact Option.noConfusion h
        | some r =>
          rw [hrep] at h
          dsimp only at h
          cases hj : jsonLoads r with
          | none =>
            rw [hj] at h
            dsimp only at h
            exact ⟨r, rfl, hj, h⟩
          | some v => rw [hj] at h; cases v <;> exact Option.noConfusion h
    · rintro ⟨r, h1, h2, h3⟩
      unfold parseJsonArgs
      cases hs : s == ""
      · rw [if_neg (by simp_all)]
        rw [h1]
        dsimp only
        rw [h2]
        dsimp only
        exact h3
      · exact absurd h1 (by rw [show s = "" from by simpa using hs]; exact fun h => hnil r h)
  · intro s h
    unfold parseJsonArgs
    split
    · rfl
    · rw [h]
  · intro ctr seen nm ag rest hseen
    constructor
    · intro h
      conv_lhs => unfold buildMistralCalls
      dsimp only
      rw [hseen, if_neg (by simp), h]
    · intro args h
      conv_lhs => unfold buildMistralCalls
      dsimp only
      rw [hseen, if_neg (by simp), h]
  · intro ctr seen nm ag rest hseen
    constructor
    · intro v h
      conv_lhs => unfold buildHarmonyCalls
      dsimp only
      rw [hseen, if_neg (by simp), h]
    · intro h v h2 h3
      conv_lhs => unfold buildHarmonyCalls
      dsimp only
      rw [hseen, if_neg (by simp), h]
      dsimp only
      rw [h2]
      dsimp only
      rw [h3, if_pos rfl]

/-- C4 witness: the ladder at concrete inputs -- the strict-parse branch on
the repaired truncated search text, the drop condition on an object fragment
with no recoverable pairs, the brace-less text repaired to the empty dict,
the mistral builder emitting that empty-argument call, and the harmony
builder emitting an empty-object call straight from the strict parse. -/
theorem C4_repair_ladder_witness :
    parseJsonArgs "\x7b\"q\": \"weather\"" = some [("q", PyVal.str "weather")] ∧
    parseJsonArgs "\x7b@@@\x7d" = none ∧
    parseJsonArgs "xyz" = some [] ∧
    buildMistralCalls 0 [] [("foo", "xyz")] =
      [{ id := mkCallId 0, name := "foo", arguments := [] }] ∧
    buildHarmonyCalls 0 [] [("foo", "\x7b\x7d")] =
      [{ id := mkCallId 0, name := "foo", arguments := PyVal.dict [] }] := by
  refine ⟨?_, ?_, ?_, ?_, ?_⟩
  · exact C4_repair_ladder.1 "\x7b\"q\": \"weather\"" "\x7b\"q\": \"weather\"\x7d"
      [("q", PyVal.str "weather")] rfl rfl
  · exact (C4_repair_ladder.2.2.1 "\x7b@@@\x7d").mpr ⟨"\x7b@@@\x7d", rfl, rfl, rfl⟩
  · exact C4_repair_ladder.2.2.2.1 "xyz" rfl
  · rw [(C4_repair_ladder.2.2.2.2.1 0 [] "foo" "xyz" [] rfl).2 [] rfl]
    rfl
  · rw [(C4_repair_ladder.2.2.2.2.2.1 0 [] "foo" "\x7b\x7d" [] rfl).1 (PyVal.dict []) rfl]
    rfl

/-- C6 counterexample: the claim states that parsing the same buffer twice
yields element-wise equal ids.  The ids are freshly drawn from uuid4 on
every parse (modelled by the fresh-id counter), so two runs disagree on
them. -/
theorem C6_counterexample_ids_differ :
    (parseMistralToolCalls 0 "[TOOL_CALLS]f[ARGS]\x7b\"a\": \"b\"\x7d").map (fun c => c.id) =
      ["call_0"] ∧
    (parseMistralToolCalls 1 "[TOOL_CALLS]f[ARGS]\x7b\"a\": \"b\"\x7d").map (fun c => c.id) =
      ["call_1"] ∧
    (parseMistralToolCalls 0 "[TOOL_CALLS]f[ARGS]\x7b\"a\": \"b\"\x7d").map (fun c => c.id) ≠
      (parseMistralToolCalls 1 "[TOOL_CALLS]f[ARGS]\x7b\"a\": \"b\"\x7d").map (fun c => c.id) := by
  refine ⟨by decide, by decide, by decide⟩

/-- C6 amended: both dialect parsers are deterministic functions of their
input text up to the freshly generated ids -- two runs over the same buffer
give lists of the same length with element-wise equal names and arguments;
only the uuid-drawn ids differ between runs. -/
theorem C6_parse_deterministic_up_to_ids :
    (∀ (n m : Nat) (text : String),
      (parseMistralToolCalls n text).map (fun c => (c.name, c.arguments)) =
        (parseMistralToolCalls m text).map (fun c => (c.name, c.arguments))) ∧
    (∀ (n m : Nat) (text : String),
      (parseHarmonyToolCalls n text).map (fun c => (c.name, c.arguments)) =
        (parseHarmonyToolCalls m text).map (fun c => (c.name, c.arguments))) := by
  constructor
  · intro n m text
    unfold parseMistralToolCalls
    split
    · rfl
    · split
      · rfl
      · exact buildMistralCalls_proj _ n m []
  · intro n m text
    unfold parseHarmonyToolCalls
    split
    · rfl
    · split
      · rfl
      · exact buildHarmonyCalls_proj _ n m []

/-- C10: a chat-completions request to a Mistral/Devstral model with an
empty or absent tools field streams the backend chunks through unchanged --
the adapter returns before any marker scanning or buffering, whatever the
chunk contents (including text containing the marker). -/
theorem C10_no_tools_passthrough (modelId : String) (ctr : Nat) (chunks : List MChunk)
    (h : isMistralModel modelId = true) :
    mistralPatchedStream modelId false ctr chunks = chunks := by
  unfold mistralPatchedStream
  rw [h]
  rfl

/-- C10 witness: a Devstral request without tools passes a chunk containing
the literal marker through untouched. -/
theorem C10_witness :
    isMistralModel "devstral-small-2505" = true ∧
    mistralPatchedStream "devstral-small-2505" false 0
      [{ content := some "x[TOOL_CALLS]f[ARGS]\x7b\"a\": 1\x7d" }] =
      [{ content := some "x[TOOL_CALLS]f[ARGS]\x7b\"a\": 1\x7d" }] :=
  ⟨by decide, C10_no_tools_passthrough "devstral-small-2505" 0
    [{ content := some "x[TOOL_CALLS]f[ARGS]\x7b\"a\": 1\x7d" }] (by decide)⟩

/-- C5 counterexample: the claim states that a channel-dialect text with
only internal (call) segments and no final segment extracts to the empty
string.  The call-segment variant that writes the content-type hint as
a constrain token between the channel header and the message token is not
matched by the channel pattern, so the cleanup branch runs instead and the
internal call segment's cleaned text is returned as display text -- while
the tool parser still recognises the very same text as a call segment. -/
theorem C5_counterexample_constrain_leak :
    extractFinalChannel
        "<|channel|>commentary to=functions.get_weather<|constrain|>json<|message|>\x7b\"city\": \"Rome\"\x7d<|call|>" =
      some "commentary to=functions.get_weather\x7b\"city\": \"Rome\"\x7d" ∧
    (parseHarmonyToolCalls 0
        "<|channel|>commentary to=functions.get_weather<|constrain|>json<|message|>\x7b\"city\": \"Rome\"\x7d<|call|>").map
      (fun c => c.name) = ["get_weather"] ∧
    (some "commentary to=functions.get_weather\x7b\"city\": \"Rome\"\x7d" : Option String) ≠
      some "" := by
  refine ⟨by decide, by decide, by decide⟩

/-- C5 amended: channel extraction behaves as claimed on texts whose
segments are recognised by the channel pattern (channel name directly
followed by the message token): a final segment is returned as display text
(special tokens stripped), and internal-only texts with no final segment
extract to the empty string -- in particular the spec's Example 4 holds for
the plain call-segment form; but a call segment written with the constrain
variant escapes the channel pattern and leaks (see the counterexample). -/
theorem C5_channel_extraction :
    (∀ (text : String) (chans : List (String × String)) (internal : Bool) (p : String × String),
      (strHas text "<|channel|>" || strHas text "<|start|>") = true →
      chanFoldGo ([], false) (findChannels text) = some (chans, internal) →
      chans.find? (fun q => q.1 == "final") = some p →
      extractFinalChannel text = some (pyStrip (subSpecial p.2))) ∧
    (∀ (text : String) (chans : List (String × String)),
      (strHas text "<|channel|>" || strHas text "<|start|>") = true →
      chanFoldGo ([], false) (findChannels text) = some (chans, true) →
      chans.find? (fun q => q.1 == "final") = none →
      extractFinalChannel text = some "") ∧
    (extractFinalChannel
        "<|channel|>commentary to=functions.get_weather<|message|>\x7b\"city\": \"Rome\"\x7d<|call|>" =
        some "" ∧
      (parseHarmonyToolCalls 0
          "<|channel|>commentary to=functions.get_weather<|message|>\x7b\"city\": \"Rome\"\x7d<|call|>").map
        (fun c => (c.name, c.arguments)) =
        [("get_weather", PyVal.dict [("city", PyVal.str "Rome")])]) := by
  refine ⟨?_, ?_, ⟨by decide, by rfl⟩⟩
  · intro text chans internal p hdet hfold hfind
    unfold extractFinalChannel
    rw [hdet]
    rw [if_neg (by decide)]
    rw [hfold]
    dsimp only
    rw [hfind]
  · intro text chans hdet hfold hfind
    unfold extractFinalChannel
    rw [hdet]
    rw [if_neg (by decide)]
    rw [hfold]
    dsimp only
    rw [hfind]
    rfl

/-- C5 witness: the final-segment branch on a concrete two-segment text and
the internal-only branch on the Example 4 text. -/
theorem C5_channel_extraction_witness :
    extractFinalChannel
        "<|channel|>analysis<|message|>thinking...<|end|><|start|>assistant<|channel|>final<|message|>response text<|end|>" =
      some "response text" ∧
    extractFinalChannel
        "<|channel|>commentary to=functions.get_weather<|message|>\x7b\"city\": \"Rome\"\x7d<|call|>" =
      some "" := by
  constructor
  · have h := C5_channel_extraction.1
      "<|channel|>analysis<|message|>thinking...<|end|><|start|>assistant<|channel|>final<|message|>response text<|end|>"
      [("final", "response text")] true ("final", "response text")
      (by decide) (by decide) (by decide)
    rw [h]
    decide
  · exact C5_channel_extraction.2.1
      "<|channel|>commentary to=functions.get_weather<|message|>\x7b\"city\": \"Rome\"\x7d<|call|>"
      [] (by decide) (by decide) (by decide)

theorem ggufFinalState_finish (inp : GInput) :
    (ggufFinalState inp).finish = ggufBackendFinish inp :=
  ggufPostLoop_finish inp

/-- C7: the terminal framing's stop reason follows the claimed precedence.
For the GGUF adapter, every produced event sequence carries exactly one
message_delta, whose stop reason is tool_use when the response produced at
least one tool call, else max_tokens when the last backend finish reason was
"length", else end_turn.  For the Mistral adapter, a parsed tool-call
response terminates in the aggregated chunk with finish reason
"tool_calls" (backend chunks, with their own finish reasons, stream through
otherwise). -/
theorem C7_stop_reason :
    (∀ (qwen : String → List TagCall) (inp : GInput),
      msgDeltaStops (ggufEvents qwen inp) = [ggufResolvedStop qwen inp]) ∧
    (∀ (ctr : Nat) (chunks : List MChunk),
      hasMistralToolCalls (mInputText chunks) = true →
      (parseMistralToolCalls ctr (mInputText chunks)).isEmpty = false →
      (mistralProcessStream ctr chunks).getLast?.map (fun c => c.finish) =
        some (some "tool_calls")) := by
  constructor
  · intro qwen inp
    unfold ggufEvents
    simp only [msgDeltaStops_append]
    rw [msgDeltaStops_warnEvs, msgDeltaStops_postLoop, msgDeltaStops_closeEvs,
      msgDeltaStops_emptyEvs, msgDeltaStops_toolBlockEvents]
    have h1 : msgDeltaStops [GEvent.msgStart] = [] := rfl
    have h2 : msgDeltaStops [GEvent.msgDelta (ggufStopR qwen inp) (ggufFinalState inp).pTok
        (ggufFinalState inp).cTok, GEvent.msgStop] = [ggufStopR qwen inp] := rfl
    rw [h1, h2]
    simp only [List.nil_append]
    unfold ggufStopR ggufResolvedStop
    rw [ggufFinalState_finish]
  · intro ctr chunks h1 h2
    rw [mistral_success_eq ctr chunks h1 h2]
    rw [List.getLast?_concat]
    rfl

/-- C7 witness: a one-chunk Mistral stream carrying a complete tool call
ends in the aggregated chunk with finish reason tool_calls. -/
theorem C7_stop_reason_witness :
    hasMistralToolCalls
      (mInputText [{ content := some "[TOOL_CALLS]f[ARGS]\x7b\"a\": \"b\"\x7d" }]) = true ∧
    (parseMistralToolCalls 0
      (mInputText [{ content := some "[TOOL_CALLS]f[ARGS]\x7b\"a\": \"b\"\x7d" }])).isEmpty = false ∧
    (mistralProcessStream 0
      [{ content := some "[TOOL_CALLS]f[ARGS]\x7b\"a\": \"b\"\x7d" }]).getLast?.map
      (fun c => c.finish) = some (some "tool_calls") :=
  ⟨by decide, by decide,
    C7_stop_reason.2 0 [{ content := some "[TOOL_CALLS]f[ARGS]\x7b\"a\": \"b\"\x7d" }]
      (by decide) (by decide)⟩

/-- C8: every event sequence the GGUF adapter produces -- for any backend
chunk sequence, any advisory message, whether or not the stream raised
mid-iteration, and any behaviour of the tag parser -- is well formed: it
ends in exactly one message_stop, every opened content block is closed
before it, block indices open in strictly increasing order at the next
unused index and are never reused, and deltas only address the open block
(so a block_stop for index i precedes every event for index i + 1). -/
theorem C8_event_wellformedness (qwen : String → List TagCall) (inp : GInput) :
    wfEvents (ggufEvents qwen inp) = true := by
  unfold wfEvents ggufEvents
  simp only [List.append_assoc]
  rw [wfGo_append (a := [GEvent.msgStart])
    (show ckSeg none 0 [GEvent.msgStart] = some (none, 0) from rfl)]
  rw [wfGo_append (ckSeg_warnEvs inp)]
  rw [wfGo_append (ggufPostLoop_ckSeg2 inp)]
  rw [wfGo_append (ckSeg_closeEvs inp)]
  rw [wfGo_append (ckSeg_emptyEvs qwen inp)]
  rw [wfGo_append (ckSeg_toolBlockEvents (ggufToolCalls qwen inp) (ggufIdx3 qwen inp))]
  rfl

/-- C9: tool-only responses.  For the GGUF (messages-protocol) adapter, a
response that produced tool calls with no text block started emits -- after
the message start and optional advisory block -- an empty text block (open
then close) before the first tool-call block, then one tool-call block per
record (open, one full-arguments json delta, close) at consecutive indices,
then the terminal framing with stop reason tool_use.  For the Mistral
(chunk-oriented) adapter, a parsed tool-call response ends in one aggregated
chunk carrying all tool calls, the k-th record tagged with index k. -/
theorem C9_tool_only_blocks :
    (∀ (qwen : String → List TagCall) (inp : GInput),
      (ggufToolCalls qwen inp).isEmpty = false →
      (ggufFinalState inp).started = false →
      ggufEvents qwen inp =
        [GEvent.msgStart] ++ ggufWarnEvs inp ++
          ([GEvent.blockStartText (ggufBaseIdx inp), GEvent.blockStop (ggufBaseIdx inp)] ++
            (toolBlockEvents (ggufBaseIdx inp + 1) (ggufToolCalls qwen inp) ++
              [GEvent.msgDelta StopR.toolUse (ggufFinalState inp).pTok (ggufFinalState inp).cTok,
                GEvent.msgStop]))) ∧
    (∀ (ctr : Nat) (chunks : List MChunk),
      hasMistralToolCalls (mInputText chunks) = true →
      (parseMistralToolCalls ctr (mInputText chunks)).isEmpty = false →
      mistralProcessStream ctr chunks =
        (chunks.foldl mProc {}).out ++
          [{ content := none, finish := some "tool_calls",
             toolCalls := (parseMistralToolCalls ctr (mInputText chunks)).enum.map
               (fun p => (p.1, p.2.id, p.2.name, pyDumps (PyVal.dict p.2.arguments))),
             tag := 0 }]) := by
  constructor
  · intro qwen inp htc hst
    have hpost := ggufPostLoop_not_started inp hst
    have hcond : (!(ggufToolCalls qwen inp).isEmpty && !(ggufFinalState inp).started) = true := by
      rw [htc, hst]
      rfl
    have hclose : ggufCloseEvs inp = [] := by
      unfold ggufCloseEvs
      rw [hst]
      rfl
    have hidx2 : ggufIdx2 inp = ggufBaseIdx inp := by
      unfold ggufIdx2
      rw [hst]
      rfl
    have hempty : ggufEmptyEvs qwen inp =
        [GEvent.blockStartText (ggufBaseIdx inp), GEvent.blockStop (ggufBaseIdx inp)] := by
      unfold ggufEmptyEvs
      rw [if_pos hcond, hidx2]
    have hidx3 : ggufIdx3 qwen inp = ggufBaseIdx inp + 1 := by
      unfold ggufIdx3
      rw [if_pos hcond, hidx2]
    have hstop : ggufStopR qwen inp = StopR.toolUse := by
      unfold ggufStopR
      rw [htc]
      rfl
    unfold ggufEvents
    rw [hpost.1, hclose, hempty, hidx3, hstop]
    simp
  · intro ctr chunks h1 h2
    rw [mistral_success_eq ctr chunks h1 h2]
    rfl

/-- Structured tool-call delta of the C9 witness. -/
def c9wDelta : GToolDelta :=
  { index := 0, id := some "id1", fname := some "get_weather", fargs := some "\x7b\"city\": \"Rome\"\x7d" }

/-- Choice delta of the C9 witness (no text, one tool-call delta). -/
def c9wChoice : GDelta := { toolDeltas := [c9wDelta] }

/-- Concrete input of the C9 witness: one chunk carrying one structured
tool-call delta and no text. -/
def c9wInput : GInput := { chunks := [{ choice := some c9wChoice }] }

/-- C9 witness: a GGUF response whose only chunk carries one structured
tool-call delta (no text), and a Mistral response whose single chunk is a
complete bracket-dialect call. -/
theorem C9_tool_only_blocks_witness :
    ((ggufToolCalls (fun _ => []) c9wInput).isEmpty = false ∧
      (ggufFinalState c9wInput).started = false ∧
      ggufEvents (fun _ => []) c9wInput =
        [GEvent.msgStart, GEvent.blockStartText 0, GEvent.blockStop 0,
          GEvent.blockStartTool 1 "id1" "get_weather",
          GEvent.jsonDelta 1 "\x7b\"city\": \"Rome\"\x7d", GEvent.blockStop 1,
          GEvent.msgDelta StopR.toolUse 0 0, GEvent.msgStop]) ∧
    (hasMistralToolCalls
        (mInputText [{ content := some "[TOOL_CALLS]get_weather[ARGS]\x7b\"city\": \"Rome\"\x7d" }])
        = true ∧
      mistralProcessStream 0
        [{ content := some "[TOOL_CALLS]get_weather[ARGS]\x7b\"city\": \"Rome\"\x7d" }] =
        [{ content := none, finish := some "tool_calls",
           toolCalls := [(0, "call_0", "get_weather", "\x7b\"city\": \"Rome\"\x7d")], tag := 0 }]) := by
  refine ⟨⟨by decide, by decide, ?_⟩, by decide, ?_⟩
  · rw [C9_tool_only_blocks.1 (fun _ => []) c9wInput (by decide) (by decide)]
    decide
  · rw [C9_tool_only_blocks.2 0
      [{ content := some "[TOOL_CALLS]get_weather[ARGS]\x7b\"city\": \"Rome\"\x7d" }]
      (by decide) (by decide)]
    decide

/-- Concrete input of the C2 counterexample: the tag marker split across two
deltas. -/
def c2xInput : GInput :=
  { chunks := [{ choice := some { content := "<tool_" } },
               { choice := some { content := "call>x" } }] }

/-- C2 counterexample: the claim states that no prefix fragment of a marker
split across delta boundaries is ever released as visible text.  The GGUF
adapter streams each delta before the marker completes, so the first half
"<tool_" of the split marker "<tool_call>" is emitted as a text event even
though the concatenated response text contains the confirmed marker. -/
theorem C2_counterexample_split_marker_leak :
    GEvent.textDelta 0 "<tool_" ∈ ggufEvents (fun _ => []) c2xInput ∧
    strHas (ggufFinalState c2xInput).acc "<tool_call>" = true ∧
    isPre "<tool_".data "<tool_call>".data = true ∧
    ("<tool_" : String) ≠ "" := by
  refine ⟨by decide, by decide, by decide, by decide⟩

/-- C2 amended: no emitted text event ever contains a full marker literal --
for the GGUF adapter unconditionally (provided the advisory message itself
is marker-free), and for the Mistral adapter whenever the parser succeeds
(on parse failure the buffered text is deliberately re-released, and marker
prefix fragments that left the lookback window before confirmation may leak
as visible text, per the counterexample). -/
theorem C2_marker_containment :
    (∀ (qwen : String → List TagCall) (inp : GInput),
      (∀ w, inp.warning = some w →
        strHas (w ++ "\n\n") "<tool_call>" = false ∧
        strHas (w ++ "\n\n") "<function=" = false) →
      ∀ i s, GEvent.textDelta i s ∈ ggufEvents qwen inp →
        strHas s "<tool_call>" = false ∧ strHas s "<function=" = false) ∧
    (∀ (ctr : Nat) (chunks : List MChunk),
      hasMistralToolCalls (mInputText chunks) = true →
      (parseMistralToolCalls ctr (mInputText chunks)).isEmpty = false →
      ∀ c ∈ mistralProcessStream ctr chunks,
        strHas (c.content.getD "") "[TOOL_CALLS]" = false) := by
  constructor
  · intro qwen inp hw i s hmem
    unfold ggufEvents at hmem
    simp only [List.append_assoc, List.mem_append, List.mem_cons, List.not_mem_nil,
      or_false, false_or] at hmem
    rcases hmem with h | h | h | h | h | h | h | h
    · exact GEvent.noConfusion h
    · -- advisory block
      unfold ggufWarnEvs at h
      rcases hwv : inp.warning with _ | w
      · rw [hwv] at h
        simp at h
      · rw [hwv] at h
        simp only [List.mem_cons, List.not_mem_nil, or_false] at h
        rcases h with h | h | h
        · exact GEvent.noConfusion h
        · have hi := GEvent.textDelta.inj h
          rw [hi.2]
          exact hw w hwv
        · exact GEvent.noConfusion h
    · -- streamed deltas
      rcases ggufPostLoop_members inp _ h with h2 | ⟨s2, h2, hf1, hf2⟩
      · exact GEvent.noConfusion h2
      · have hi := GEvent.textDelta.inj h2
        rw [hi.2]
        exact ⟨hf1, hf2⟩
    · -- text block close
      unfold ggufCloseEvs at h
      split at h
      · simp only [List.mem_singleton] at h
        exact GEvent.noConfusion h
      · simp at h
    · -- empty text block of a tool-only response
      unfold ggufEmptyEvs at h
      split at h
      · simp only [List.mem_cons, List.not_mem_nil, or_false] at h
        rcases h with h | h
        · exact GEvent.noConfusion h
        · exact GEvent.noConfusion h
      · simp at h
    · -- tool blocks
      rcases toolBlockEvents_members _ _ _ h with ⟨j, a, b, h2⟩ | ⟨j, s2, h2⟩ | ⟨j, h2⟩
      · exact GEvent.noConfusion h2
      · exact GEvent.noConfusion h2
      · exact GEvent.noConfusion h2
    · exact GEvent.noConfusion h
    · exact GEvent.noConfusion h
  · intro ctr chunks h1 h2 c hc
    rw [mistral_success_eq ctr chunks h1 h2] at hc
    have hinv := foldl_mProc_inv chunks {} mInv_init
    rcases List.mem_append.mp hc with hc | hc
    · have hfree := hinv.2 c (List.mem_append.mpr (Or.inl hc))
      cases hval : strHas (c.content.getD "") "[TOOL_CALLS]"
      · rfl
      · exfalso
        have hpart : strHas (c.content.getD "") "[TOOL_CALLS" = true := by
          have heq : ("[TOOL_CALLS" ++ "]" : String) = "[TOOL_CALLS]" := by decide
          exact strHas_of_strHas_extended (p := "[TOOL_CALLS") (q := "]")
            (by rw [heq]; exact hval)
        rw [hpart] at hfree
        cases hfree
    · rcases List.mem_singleton.mp hc with rfl
      rfl

/-- C2 witness: a marker-free GGUF delta streams through with no marker in
it, and the single aggregated chunk of a successful Mistral parse carries no
text at all; both facts instantiate the containment theorem. -/
theorem C2_marker_containment_witness :
    (strHas "hello" "<tool_call>" = false ∧ strHas "hello" "<function=" = false) ∧
    strHas
      (((mistralProcessStream 0
          [{ content := some "[TOOL_CALLS]f[ARGS]\x7b\"a\": \"b\"\x7d" }]).headD {}).content.getD "")
      "[TOOL_CALLS]" = false := by
  constructor
  · exact C2_marker_containment.1 (fun _ => [])
      { chunks := [{ choice := some { content := "hello" } }] }
      (fun w hw => Option.noConfusion hw) 0 "hello" (by decide)
  · exact C2_marker_containment.2 0
      [{ content := some "[TOOL_CALLS]f[ARGS]\x7b\"a\": \"b\"\x7d" }]
      (by decide) (by decide)
      ((mistralProcessStream 0
          [{ content := some "[TOOL_CALLS]f[ARGS]\x7b\"a\": \"b\"\x7d" }]).headD {})
      (by decide)
